import Mathlib

/-!
Shallow embedding of the route optimization engine of
`src/backend/src/services/RouteOptimizer.ts` (class `RouteOptimizer`), and
proofs about the spec's claims over it.

Embedding conventions:
* JS numbers are modelled as rationals (`ℚ`).  The claims under study are
  about control flow, ordering, index arithmetic and comparisons, none of
  which depend on float rounding for the concrete inputs used here.
* `calculateDistance` (the haversine formula, transcendental) is modelled as
  an explicit function parameter `dist : ℚ → ℚ → ℚ → ℚ → ℚ` taking
  `lat1 lon1 lat2 lon2`, exactly as the source's method signature.  All
  general theorems quantify over it; concrete counterexamples instantiate it
  with a computable squared-euclidean stand-in whose comparison behaviour on
  the chosen inputs matches haversine (points on one meridian / small plane
  patches, where haversine is monotone in euclidean distance).
* JS strings are modelled as `String`/`List Char` (ASCII); `toLowerCase` as
  ASCII lowering; the two regex replaces of `normalizeAddressForGrouping`
  are implemented with JS `String.replace` semantics (left-to-right scan,
  non-overlapping, greedy `\s*`/`[a-z0-9]+`; the patterns here are
  deterministic: no alternative of `(apt|apartment|unit|suite|#)` is a
  prefix of a situation where another alternative could match instead).
* JS `Map` iteration is insertion-ordered; it is modelled by an
  insertion-ordered association list.
* The mutable field `this.originalAddresses` (set by `optimizeRoute` to the
  grouped address list before any lookup) is threaded explicitly as an
  `orig` parameter.
* The Google distance-matrix provider is an oracle
  `Provider : Nat → Nat → Option (List (List CellResult))` giving, per
  (origin-chunk-start, destination-chunk-start), either a well-shaped chunk
  of per-cell results (`ok meters` / `notOk`, mirroring `element.status`)
  or `none` for a request-level failure (network/quota/parse throw).
* Loops that are not structurally recursive in the source are given fuel
  equal to the bound the source itself enforces (iteration caps), or to the
  list length for scans that consume at least one character/element per
  step; adequacy of the fuel is proved where it matters.
-/

namespace RP

/- Restore default transparency of the rational operations so that concrete
evaluations can go through `decide` (Batteries seals them; the kernel is
unaffected either way). -/
attribute [local semireducible] Rat.ofScientific Rat.mul Rat.inv Rat.add Rat.sub

set_option maxRecDepth 1000000

/-! ## Characters and JS-regex scanning used by `normalizeAddressForGrouping` -/

/-- JS `\s` (the whitespace classes that can occur in ASCII addresses). -/
def isSpaceChar (c : Char) : Bool :=
  c = ' ' || c = '\t' || c = '\n' || c = '\r' || c = '\x0b' || c = '\x0c'

/-- ASCII lower-casing of one character (JS `toLowerCase` restricted to ASCII). -/
def lowerChar (c : Char) : Char :=
  if 'A' ≤ c ∧ c ≤ 'Z' then Char.ofNat (c.toNat + 32) else c

/-- JS `toLowerCase` on a character list. -/
def toLowerCaseStr (l : List Char) : List Char := l.map lowerChar

/-- `[a-z]` with the `i` flag. -/
def isAsciiLetter (c : Char) : Bool :=
  decide ('a' ≤ lowerChar c) && decide (lowerChar c ≤ 'z')

/-- `[a-z0-9]` with the `i` flag. -/
def isAlnumChar (c : Char) : Bool :=
  isAsciiLetter c || (decide ('0' ≤ c) && decide (c ≤ '9'))

/-- `\s*`-consumption (maximal munch; the following pattern atoms here never
match a whitespace character, so no backtracking is possible). -/
def dropSpaces (l : List Char) : List Char := l.dropWhile isSpaceChar

/-- Case-insensitive literal match at the head; returns the remainder. -/
def matchLit : List Char → List Char → Option (List Char)
  | [], l => some l
  | _ :: _, [] => none
  | p :: ps, c :: cs => if lowerChar c = p then matchLit ps cs else none

def kwApt : List Char := ['a', 'p', 't']
def kwApartment : List Char := ['a', 'p', 'a', 'r', 't', 'm', 'e', 'n', 't']
def kwUnit : List Char := ['u', 'n', 'i', 't']
def kwSuite : List Char := ['s', 'u', 'i', 't', 'e']

/-- The alternation `(apt|apartment|unit|suite|#)` (source order).  The
alternatives pairwise disagree within their common prefix ranges (`apt` and
`apartment` differ at the third character), so first-match is faithful to the
backtracking JS engine. -/
def matchKeyword (l : List Char) : Option (List Char) :=
  match matchLit kwApt l with
  | some r => some r
  | none =>
    match matchLit kwApartment l with
    | some r => some r
    | none =>
      match matchLit kwUnit l with
      | some r => some r
      | none =>
        match matchLit kwSuite l with
        | some r => some r
        | none =>
          if l.head? = some '#' then some l.tail else none

/-- One attempt of `/,?\s*(apt|apartment|unit|suite|#)\s*[a-z0-9]+/i` at the
head of `l`; returns the remainder after the match.  (`,?` is deterministic:
if the head is a comma and the rest fails, the comma-less attempt fails at
once because `,` is neither whitespace nor a keyword head.) -/
def tryMatch1 (l : List Char) : Option (List Char) :=
  let l0 := if l.head? = some ',' then l.tail else l
  let l1 := dropSpaces l0
  match matchKeyword l1 with
  | none => none
  | some l2 =>
    let l3 := dropSpaces l2
    match l3 with
    | c :: r => if isAlnumChar c then some (r.dropWhile isAlnumChar) else none
    | [] => none

/-- Global replace of regex 1 by the empty string: left-to-right scan,
restart after each (nonempty) match.  Fuel: every step consumes at least one
character, so `l.length` steps always complete the scan. -/
def replace1Go : Nat → List Char → List Char
  | _, [] => []
  | 0, l => l
  | fuel + 1, c :: rest =>
    match tryMatch1 (c :: rest) with
    | some r => replace1Go fuel r
    | none => c :: replace1Go fuel rest

def replace1 (l : List Char) : List Char := replace1Go l.length l

/-- `\s*[a-z]\s*$` tested against an entire suffix. -/
def match2Core (l : List Char) : Bool :=
  match dropSpaces l with
  | c :: rest => isAsciiLetter c && rest.all isSpaceChar
  | [] => false

/-- `/,?\s*[a-z]\s*$/i` tested at the start of a suffix (consuming it all). -/
def tryMatch2 (l : List Char) : Bool :=
  if l.head? = some ',' then match2Core l.tail else match2Core l

/-- Global replace of regex 2 by the empty string.  The pattern is anchored
at `$`, so the first (leftmost) match consumes the rest of the string and
scanning stops. -/
def replace2 : List Char → List Char
  | [] => []
  | c :: rest => if tryMatch2 (c :: rest) then [] else c :: replace2 rest

/-- `.replace(/\s+/g, ' ')`: each maximal whitespace run becomes one space.
Fuel as in `replace1Go`. -/
def collapseWsGo : Nat → List Char → List Char
  | _, [] => []
  | 0, l => l
  | fuel + 1, c :: rest =>
    if isSpaceChar c then ' ' :: collapseWsGo fuel (dropSpaces rest)
    else c :: collapseWsGo fuel rest

def collapseWs (l : List Char) : List Char := collapseWsGo l.length l

/-- JS `String.trim`. -/
def trimStr (l : List Char) : List Char :=
  ((l.dropWhile isSpaceChar).reverse.dropWhile isSpaceChar).reverse

/-- `normalizeAddressForGrouping` (source lines 452–462). -/
def normalizeAddressForGrouping (s : String) : String :=
  String.mk (trimStr (collapseWs (replace2 (replace1 (toLowerCaseStr s.data)))))

/-! ## Data model -/

/-- The source's `Address` interface.  Optional coordinates are modelled as
required: every claim under study concerns stops that have coordinates (the
engine's callers filter the rest; the engine dereferences `latitude!`). -/
structure Address where
  id : String
  address : String
  latitude : ℚ
  longitude : ℚ
  name : String
  notes : String
deriving DecidableEq

/-- An address as it flows through the optimizer: the dynamic
`groupedAddresses` field attached by `groupSameLocationAddresses` is
`members`; `members = []` is a plain (ungrouped) address. -/
structure GroupedAddress where
  core : Address
  members : List Address
deriving DecidableEq

def emptyStr : String := String.mk []

def strGroupUnderscore : String := String.mk ['g', 'r', 'o', 'u', 'p', '_']
def strPlusOpen : String := String.mk [' ', '(', '+']
def strMoreClose : String := String.mk [' ', 'm', 'o', 'r', 'e', ')']
def strGroupOf : String := String.mk ['G', 'r', 'o', 'u', 'p', ' ', 'o', 'f', ' ']
def strDeliveries : String :=
  String.mk [' ', 'd', 'e', 'l', 'i', 'v', 'e', 'r', 'i', 'e', 's', ':', ' ']
def strCommaSpace : String := String.mk [',', ' ']

/-- JS `a.name || a.id` (empty string is falsy). -/
def jsNameOrId (a : Address) : String := if a.name = emptyStr then a.id else a.name

/-- JS `Array.join(sep)`. -/
def joinSep (sep : String) : List String → String
  | [] => emptyStr
  | [x] => x
  | x :: y :: rest => x ++ sep ++ joinSep sep (y :: rest)

/-- Append `a` to the entry for `key`, or add a new trailing entry — the
insertion-ordered behaviour of the JS `Map` in the source. -/
def updateAssoc (key : String) (a : Address) :
    List (String × List Address) → List (String × List Address)
  | [] => [(key, [a])]
  | (k, xs) :: rest =>
    if k = key then (k, xs ++ [a]) :: rest else (k, xs) :: updateAssoc key a rest

def buildGroups (addrs : List Address) : List (String × List Address) :=
  addrs.foldl (fun acc a => updateAssoc (normalizeAddressForGrouping a.address) a acc) []

/-- `groupSameLocationAddresses` (source lines 416–449). -/
def groupSameLocationAddresses (addrs : List Address) : List GroupedAddress :=
  (buildGroups addrs).map fun kg =>
    match kg.2 with
    | [x] => ⟨x, []⟩
    | x :: y :: rest =>
      ⟨{ x with
          id := strGroupUnderscore ++ kg.1
          name := x.name ++ strPlusOpen ++ Nat.repr ((x :: y :: rest).length - 1) ++ strMoreClose
          notes := strGroupOf ++ Nat.repr (x :: y :: rest).length ++ strDeliveries ++
            joinSep strCommaSpace ((x :: y :: rest).map jsNameOrId) },
        x :: y :: rest⟩
    | [] => ⟨⟨emptyStr, kg.1, 0, 0, emptyStr, emptyStr⟩, []⟩

/-! ## Distance matrix construction -/

/-- The type of the modelled `calculateDistance` (lat1 lon1 lat2 lon2). -/
abbrev Dist := ℚ → ℚ → ℚ → ℚ → ℚ

abbrev DMatrix := List (List ℚ)

/-- `calculateDistance` applied to two grouped addresses. -/
def distG (dist : Dist) (a b : GroupedAddress) : ℚ :=
  dist a.core.latitude a.core.longitude b.core.latitude b.core.longitude

/-- One provider cell: `element.status === 'OK'` with `distance.value` in
meters, or a not-OK status. -/
inductive CellResult where
  | ok (meters : ℚ)
  | notOk
deriving DecidableEq

/-- Provider oracle: per (origin-chunk-start, destination-chunk-start) either
a well-shaped chunk or a request-level failure. -/
abbrev Provider := Nat → Nat → Option (List (List CellResult))

/-- The chunk start offsets `0, 10, 20, …` of `buildDistanceMatrix`'s loops
(`chunkSize = 10`). -/
def chunkStarts (n : Nat) : List Nat := (List.range ((n + 9) / 10)).map (· * 10)

/-- Did any batch request fail?  (The source aborts the provider path at the
first thrown request; since the whole partial matrix is then discarded, only
failure-existence matters for the result.) -/
def requestFailed (prov : Provider) (n : Nat) : Bool :=
  (chunkStarts n).any fun i => (chunkStarts n).any fun j => (prov i j).isNone

/-- Matrix cell lookup (`matrix[i] && matrix[i][j] !== undefined`). -/
def getQ (m : DMatrix) (i j : Nat) : Option ℚ :=
  (m[i]?).bind fun row => row[j]?

/-- `buildHaversineMatrix` (source lines 555–573). -/
def buildHaversineMatrix (dist : Dist) (addrs : List GroupedAddress) : DMatrix :=
  (List.range addrs.length).map fun i =>
    (List.range addrs.length).map fun j =>
      if i = j then 0
      else
        match addrs[i]?, addrs[j]? with
        | some a, some b => distG dist a b
        | _, _ => 0

/-- The provider cell covering matrix position `(r, c)` (chunks tile the
grid disjointly; `getD` defaults are unreachable for well-shaped chunks). -/
def cellAt (prov : Provider) (r c : Nat) : CellResult :=
  match prov (10 * (r / 10)) (10 * (c / 10)) with
  | some rows => (rows.getD (r % 10) []).getD (c % 10) CellResult.notOk
  | none => CellResult.notOk

/-- `buildDistanceMatrix` (source lines 485–520): no API key → geometric
matrix; any batch request failure → whole-matrix geometric rebuild (the
`catch` branch); otherwise assemble provider cells, each not-OK cell falling
back to the geometric distance of its endpoints (`getDistanceMatrixChunk`,
lines 523–552, `element.status` handling). -/
def buildDistanceMatrix (dist : Dist) (prov : Provider) (hasApiKey : Bool)
    (addrs : List GroupedAddress) : DMatrix :=
  if hasApiKey = true then
    if requestFailed prov addrs.length = true then buildHaversineMatrix dist addrs
    else
      (List.range addrs.length).map fun r =>
        (List.range addrs.length).map fun c =>
          match cellAt prov r c with
          | CellResult.ok v => v / 1000
          | CellResult.notOk =>
            match addrs[r]?, addrs[c]? with
            | some a, some b => distG dist a b
            | _, _ => 0
  else buildHaversineMatrix dist addrs

/-! ## Index lookups and route totals -/

/-- A placeholder only used as the default of in-range `getD` accesses. -/
def dummyAddress : GroupedAddress := ⟨⟨emptyStr, emptyStr, 0, 0, emptyStr, emptyStr⟩, []⟩

/-- `findAddressIndex` (source lines 313–316): index of the first address in
`this.originalAddresses` with the same `id`; `none` models `-1`. -/
def findAddressIndex (orig : List GroupedAddress) (a : GroupedAddress) : Option Nat :=
  orig.findIdx? fun x => x.core.id = a.core.id

/-- `getMatrixDistance` (source lines 867–877) — also the per-edge cost of
`calculateTotalDistanceWithMatrix` (lines 291–310), which inlines the same
logic: valid indices and a present cell (`!== undefined`) use the matrix,
anything else falls back to the geometric distance. -/
def getMatrixDistance (dist : Dist) (orig : List GroupedAddress) (m : DMatrix)
    (a b : GroupedAddress) : ℚ :=
  match findAddressIndex orig a, findAddressIndex orig b with
  | some i, some j =>
    match getQ m i j with
    | some v => v
    | none => distG dist a b
  | _, _ => distG dist a b

/-- The per-candidate cost inside `nearestNeighborWithMatrix` and
`greedyTSP`: these two check the cell for JS *truthiness*
(`matrix[currentIdx] && matrix[currentIdx][candidateIdx]`), so a present
cell holding `0` also falls back to the geometric distance. -/
def nnLookupDistance (dist : Dist) (orig : List GroupedAddress) (m : DMatrix)
    (a b : GroupedAddress) : ℚ :=
  match findAddressIndex orig a, findAddressIndex orig b with
  | some i, some j =>
    match getQ m i j with
    | some v => if v = 0 then distG dist a b else v
    | none => distG dist a b
  | _, _ => distG dist a b

/-- Sum of `c` over consecutive pairs. -/
def totalBy (c : α → α → ℚ) : List α → ℚ
  | [] => 0
  | [_] => 0
  | x :: y :: rest => c x y + totalBy c (y :: rest)

/-- `calculateTotalDistance(route, matrix)` with a matrix present
(source lines 273–310). -/
def calculateTotalDistance (dist : Dist) (orig : List GroupedAddress) (m : DMatrix)
    (route : List GroupedAddress) : ℚ :=
  totalBy (getMatrixDistance dist orig m) route

/-! ## Construction heuristics -/

/-- `findNearestAddress` (source lines 351–375): strict `<` keeps the
earliest of equally-near addresses; the initial minimum is the first
element's distance. -/
def findNearestAddress (dist : Dist) (lat lng : ℚ) :
    List GroupedAddress → Option GroupedAddress
  | [] => none
  | a0 :: rest =>
    some
      (((a0 :: rest).foldl
        (fun (acc : GroupedAddress × ℚ) a =>
          let d := dist lat lng a.core.latitude a.core.longitude
          if d < acc.2 then (a, d) else acc)
        (a0, dist lat lng a0.core.latitude a0.core.longitude)).1)

/-- The loop of `nearestNeighborTSP` (source lines 318–349); fuel is the
number of unvisited addresses. -/
def nnTSPGo (dist : Dist) : Nat → GroupedAddress → List GroupedAddress → List GroupedAddress
  | 0, _, _ => []
  | _ + 1, _, [] => []
  | fuel + 1, cur, u =>
    match findNearestAddress dist cur.core.latitude cur.core.longitude u with
    | none => []
    | some nearest => nearest :: nnTSPGo dist fuel nearest (u.erase nearest)

/-- `nearestNeighborTSP` (matrix-free; used on cluster centroids). -/
def nearestNeighborTSP (dist : Dist) (addrs : List GroupedAddress)
    (start : Option (ℚ × ℚ)) : List GroupedAddress :=
  match addrs with
  | [] => []
  | a0 :: _ =>
    let cur := match start with
      | some s => (findNearestAddress dist s.1 s.2 addrs).getD a0
      | none => a0
    cur :: nnTSPGo dist addrs.length cur (addrs.erase cur)

/-- The start-pick of `nearestNeighborWithMatrix`/`greedyTSP`: the first
address within a `0.001`-degree box of the start, else the first address. -/
def toleranceStart (addrs : List GroupedAddress) (a0 : GroupedAddress)
    (s : ℚ × ℚ) : GroupedAddress :=
  (addrs.find? fun a =>
    decide (|a.core.latitude - s.1| < 1 / 1000) &&
    decide (|a.core.longitude - s.2| < 1 / 1000)).getD a0

/-- The inner candidate scan of `nearestNeighborWithMatrix` (source lines
696–712): `shortestDistance` starts at `Infinity` (modelled `none`),
`nearest` starts at `unvisited[0]`, strict `<` update over all candidates in
list order. -/
def findMinCandidate (dist : Dist) (orig : List GroupedAddress) (m : DMatrix)
    (cur : GroupedAddress) : List GroupedAddress → Option GroupedAddress
  | [] => none
  | c0 :: rest =>
    some
      (((c0 :: rest).foldl
        (fun (acc : GroupedAddress × Option ℚ) cand =>
          let d := nnLookupDistance dist orig m cur cand
          match acc.2 with
          | none => (cand, some d)
          | some s => if d < s then (cand, some d) else acc)
        (c0, none)).1)

def nearestNeighborWithMatrixGo (dist : Dist) (orig : List GroupedAddress) (m : DMatrix) :
    Nat → GroupedAddress → List GroupedAddress → List GroupedAddress
  | 0, _, _ => []
  | _ + 1, _, [] => []
  | fuel + 1, cur, u =>
    match findMinCandidate dist orig m cur u with
    | none => []
    | some nearest =>
      nearest :: nearestNeighborWithMatrixGo dist orig m fuel nearest (u.erase nearest)

/-- `nearestNeighborWithMatrix` (source lines 680–720). -/
def nearestNeighborWithMatrix (dist : Dist) (orig : List GroupedAddress) (m : DMatrix)
    (addrs : List GroupedAddress) (start : Option (ℚ × ℚ)) : List GroupedAddress :=
  match addrs with
  | [] => []
  | [a] => [a]
  | a0 :: a1 :: rest =>
    let all := a0 :: a1 :: rest
    let cur := match start with
      | some s => toleranceStart all a0 s
      | none => a0
    cur :: nearestNeighborWithMatrixGo dist orig m all.length cur (all.erase cur)

/-- The candidate scan of `greedyTSP` (source lines 738–754): like
`findMinCandidate` but `nextAddress` starts at `null`. -/
def findMinGreedy (dist : Dist) (orig : List GroupedAddress) (m : DMatrix)
    (cur : GroupedAddress) (unvisited : List GroupedAddress) : Option GroupedAddress :=
  (unvisited.foldl
    (fun (acc : Option GroupedAddress × Option ℚ) cand =>
      let cost := nnLookupDistance dist orig m cur cand
      match acc.2 with
      | none => (some cand, some cost)
      | some s => if cost < s then (some cand, some cost) else acc)
    (none, none)).1

def greedyTSPGo (dist : Dist) (orig : List GroupedAddress) (m : DMatrix) :
    Nat → GroupedAddress → List GroupedAddress → List GroupedAddress
  | 0, _, _ => []
  | _ + 1, _, [] => []
  | fuel + 1, cur, u =>
    match findMinGreedy dist orig m cur u with
    | none => []
    | some nxt => nxt :: greedyTSPGo dist orig m fuel nxt (u.erase nxt)

/-- `greedyTSP` (source lines 722–766). -/
def greedyTSP (dist : Dist) (orig : List GroupedAddress) (m : DMatrix)
    (addrs : List GroupedAddress) (start : Option (ℚ × ℚ)) : List GroupedAddress :=
  if addrs.length ≤ 3 then nearestNeighborWithMatrix dist orig m addrs start
  else
    match addrs with
    | [] => []
    | a0 :: _ =>
      let cur := match start with
        | some s => toleranceStart addrs a0 s
        | none => a0
      cur :: greedyTSPGo dist orig m addrs.length cur (addrs.erase cur)

/-! ## Local search -/

/-- The `(i, j)` iteration order of `apply2OptImprovement`'s nested loops
(source lines 794–795): `1 ≤ i < n − 2`, `i + 1 ≤ j < n − 1`, lexicographic. -/
def pairList (n : Nat) : List (Nat × Nat) :=
  ((List.range (n - 2)).filter fun i => decide (1 ≤ i)).flatMap fun i =>
    ((List.range (n - 1)).filter fun j => decide (i + 1 ≤ j)).map fun j => (i, j)

/-- `improved.slice(0, i) ++ improved.slice(i, j + 1).reverse() ++
improved.slice(j + 1)` (source lines 806–810). -/
def twoOptSwapAt (r : List α) (i j : Nat) : List α :=
  r.take i ++ ((r.drop i).take (j + 1 - i)).reverse ++ r.drop (j + 1)

/-- One full scan of the nested loops of `apply2OptImprovement` (first
improvement: an accepted reversal replaces the route immediately and the
scan continues from the current `(i, j)`); returns the scanned route and
whether any move was accepted.  The loop bounds read `improved.length`, but
reversals preserve length, so the pair list is fixed at entry. -/
def twoOptPass (dist : Dist) (orig : List GroupedAddress) (m : DMatrix)
    (r : List GroupedAddress) : List GroupedAddress × Bool :=
  (pairList r.length).foldl
    (fun (acc : List GroupedAddress × Bool) ij =>
      let cur := acc.1
      let currentDist :=
        getMatrixDistance dist orig m (cur.getD (ij.1 - 1) dummyAddress) (cur.getD ij.1 dummyAddress) +
        getMatrixDistance dist orig m (cur.getD ij.2 dummyAddress) (cur.getD (ij.2 + 1) dummyAddress)
      let newDist :=
        getMatrixDistance dist orig m (cur.getD (ij.1 - 1) dummyAddress) (cur.getD ij.2 dummyAddress) +
        getMatrixDistance dist orig m (cur.getD ij.1 dummyAddress) (cur.getD (ij.2 + 1) dummyAddress)
      if newDist < currentDist then (twoOptSwapAt cur ij.1 ij.2, true) else (cur, acc.2))
    (r, false)

def apply2OptImprovementGo (dist : Dist) (orig : List GroupedAddress) (m : DMatrix) :
    Nat → List GroupedAddress → List GroupedAddress
  | 0, r => r
  | fuel + 1, r =>
    let pr := twoOptPass dist orig m r
    if pr.2 = true then apply2OptImprovementGo dist orig m fuel pr.1 else pr.1

/-- `apply2OptImprovement` (source lines 782–820): passes repeat while one
accepted a move, capped at `min(20, route.length)` passes. -/
def apply2OptImprovement (dist : Dist) (orig : List GroupedAddress) (m : DMatrix)
    (route : List GroupedAddress) : List GroupedAddress :=
  if route.length < 4 then route
  else apply2OptImprovementGo dist orig m (min 20 route.length) route

/-- The `(i, j)` iteration order of `applyOrOptImprovement` (source lines
835–842): `1 ≤ i < n − 1` over the route, `0 ≤ j < n − 1` over the route
without element `i`. -/
def orOptPairs (n : Nat) : List (Nat × Nat) :=
  ((List.range (n - 1)).filter fun i => decide (1 ≤ i)).flatMap fun i =>
    (List.range (n - 1)).map fun j => (i, j)

/-- Remove index `i` and reinsert the removed element at position `j`
(source lines 839–847). -/
def orOptRelocate (r : List GroupedAddress) (i j : Nat) : List GroupedAddress :=
  let x := r.getD i dummyAddress
  let wo := r.eraseIdx i
  wo.take j ++ [x] ++ wo.drop j

/-- One while-iteration of `applyOrOptImprovement`: the first relocation
whose full new total is strictly below the current total (both breaks fire
after an acceptance). -/
def orOptStep (dist : Dist) (orig : List GroupedAddress) (m : DMatrix)
    (r : List GroupedAddress) : Option (List GroupedAddress) :=
  ((orOptPairs r.length).find? fun ij =>
      decide (calculateTotalDistance dist orig m (orOptRelocate r ij.1 ij.2) <
        calculateTotalDistance dist orig m r)).map
    fun ij => orOptRelocate r ij.1 ij.2

def applyOrOptImprovementGo (dist : Dist) (orig : List GroupedAddress) (m : DMatrix) :
    Nat → List GroupedAddress → List GroupedAddress
  | 0, r => r
  | fuel + 1, r =>
    match orOptStep dist orig m r with
    | some r2 => applyOrOptImprovementGo dist orig m fuel r2
    | none => r

/-- `applyOrOptImprovement` (source lines 822–865): up to 10 sweeps. -/
def applyOrOptImprovement (dist : Dist) (orig : List GroupedAddress) (m : DMatrix)
    (route : List GroupedAddress) : List GroupedAddress :=
  if route.length < 4 then route
  else applyOrOptImprovementGo dist orig m 10 route

def applyLocalSearchImprovementsGo (dist : Dist) (orig : List GroupedAddress) (m : DMatrix) :
    Nat → List GroupedAddress → List GroupedAddress
  | 0, r => r
  | fuel + 1, r =>
    let before := calculateTotalDistance dist orig m r
    let r2 := applyOrOptImprovement dist orig m (apply2OptImprovement dist orig m r)
    let after := calculateTotalDistance dist orig m r2
    if after < before then applyLocalSearchImprovementsGo dist orig m fuel r2 else r2

/-- `applyLocalSearchImprovements` (source lines 652–676): alternate the two
passes while the total strictly decreases, capped at 50 alternations. -/
def applyLocalSearchImprovements (dist : Dist) (orig : List GroupedAddress) (m : DMatrix)
    (route : List GroupedAddress) : List GroupedAddress :=
  applyLocalSearchImprovementsGo dist orig m 50 route

/-! ## Strategy tiers -/

/-- `christofidesApproximation` (source lines 768–780). -/
def christofidesApproximation (dist : Dist) (orig : List GroupedAddress) (m : DMatrix)
    (addrs : List GroupedAddress) (start : Option (ℚ × ℚ)) : List GroupedAddress :=
  if addrs.length ≤ 5 then greedyTSP dist orig m addrs start
  else apply2OptImprovement dist orig m (nearestNeighborWithMatrix dist orig m addrs start)

/-- The best-of selection of `advancedTSPOptimization` (source lines
590–600): start from `results[0]` and keep any strictly better total. -/
def pickBestRoute (dist : Dist) (orig : List GroupedAddress) (m : DMatrix) :
    List (List GroupedAddress) → List GroupedAddress
  | [] => []
  | r0 :: rest =>
    (((r0 :: rest).foldl
      (fun (acc : List GroupedAddress × ℚ) r =>
        let d := calculateTotalDistance dist orig m r
        if d < acc.2 then (r, d) else acc)
      (r0, calculateTotalDistance dist orig m r0)).1)

/-- `advancedTSPOptimization` (source lines 576–603). -/
def advancedTSPOptimization (dist : Dist) (orig : List GroupedAddress) (m : DMatrix)
    (addrs : List GroupedAddress) (start : Option (ℚ × ℚ)) : List GroupedAddress :=
  pickBestRoute dist orig m
    [nearestNeighborWithMatrix dist orig m addrs start,
     greedyTSP dist orig m addrs start,
     christofidesApproximation dist orig m addrs start]

/-- `hybridOptimization` (source lines 606–621). -/
def hybridOptimization (dist : Dist) (orig : List GroupedAddress) (m : DMatrix)
    (addrs : List GroupedAddress) (start : Option (ℚ × ℚ)) : List GroupedAddress :=
  applyOrOptImprovement dist orig m
    (apply2OptImprovement dist orig m (nearestNeighborWithMatrix dist orig m addrs start))

/-! ## Geographic clustering -/

/-- The nearest-center index scan of `createSmartClusters` (source lines
899–919): `minDistance` starts at `Infinity`, strict `<`, earliest index on
ties. -/
def nearestCenterIdx (dist : Dist) (centers : List (ℚ × ℚ)) (a : GroupedAddress) : Nat :=
  (centers.foldl
    (fun (acc : Nat × Option ℚ × Nat) c =>
      let d := dist a.core.latitude a.core.longitude c.1 c.2
      match acc.2.1 with
      | none => (acc.2.2, some d, acc.2.2 + 1)
      | some s => if d < s then (acc.2.2, some d, acc.2.2 + 1) else (acc.1, some s, acc.2.2 + 1))
    (0, none, 0)).1

/-- `createSmartClusters` (source lines 879–926): deterministic seed
sampling at `⌊i·n/count⌋`, single-pass nearest-seed assignment in input
order, empty clusters dropped. -/
def createSmartClusters (dist : Dist) (addrs : List GroupedAddress) (count : Nat) :
    List (List GroupedAddress) :=
  if addrs.length ≤ count then addrs.map fun a => [a]
  else
    let centers := (List.range count).map fun i =>
      match addrs[(i * addrs.length) / count]? with
      | some a => (a.core.latitude, a.core.longitude)
      | none => ((0 : ℚ), (0 : ℚ))
    ((List.range count).map fun k =>
      addrs.filter fun a => decide (nearestCenterIdx dist centers a = k)).filter
      fun b => decide (b ≠ [])

/-- `extractSubMatrix` (source lines 928–934). -/
def extractSubMatrix (m : DMatrix) (indices : List Nat) : DMatrix :=
  indices.map fun i => indices.map fun j =>
    match getQ m i j with
    | some v => v
    | none => 0

/-- `addresses.indexOf(addr)` (first value match; `addrs.length` models the
out-of-range `-1`, which reads as a missing row downstream). -/
def indexOfAddr (addrs : List GroupedAddress) (a : GroupedAddress) : Nat :=
  (addrs.findIdx? fun x => decide (x = a)).getD addrs.length

def strClusterDash : String := String.mk ['c', 'l', 'u', 's', 't', 'e', 'r', '-']
def strClusterCenter : String :=
  String.mk ['c', 'l', 'u', 's', 't', 'e', 'r', '-', 'c', 'e', 'n', 't', 'e', 'r']

/-- The synthetic centroid pseudo-address of one cluster (source lines
940–944); an empty cluster is unreachable (empty clusters were dropped). -/
def clusterCenterOf (cl : List GroupedAddress) : GroupedAddress :=
  ⟨⟨strClusterDash ++ Nat.repr cl.length, strClusterCenter,
    (cl.foldl (fun s a => s + a.core.latitude) 0) / cl.length,
    (cl.foldl (fun s a => s + a.core.longitude) 0) / cl.length,
    emptyStr, emptyStr⟩, []⟩

/-- `optimizeClusterOrder` (source lines 936–962): order the centroids by
`nearestNeighborTSP`, then re-identify each ordered centroid among the
centroid list by coordinate matching with absolute tolerance `0.0001`,
keeping the first match (`findIndex`); unmatched centers are skipped.
(`matrix` and `allAddresses` are accepted but unused, as in the source.) -/
def optimizeClusterOrder (dist : Dist) (clusters : List (List GroupedAddress))
    (matrix : DMatrix) (allAddresses : List GroupedAddress) (start : Option (ℚ × ℚ)) :
    List (List GroupedAddress) :=
  if clusters.length ≤ 1 then clusters
  else
    let clusterCenters := clusters.map clusterCenterOf
    let orderedCenters := nearestNeighborTSP dist clusterCenters start
    orderedCenters.filterMap fun c =>
      (clusterCenters.findIdx? fun cc =>
        decide (|cc.core.latitude - c.core.latitude| < 1 / 10000) &&
        decide (|cc.core.longitude - c.core.longitude| < 1 / 10000)).bind
        fun ci => clusters[ci]?

/-- `clusterBasedOptimization` (source lines 624–649): `⌈n/30⌉` clusters,
each ordered by `nearestNeighborWithMatrix` over its sub-matrix (note the
source keeps using full-matrix indices via `findAddressIndex` against the
grouped list `orig` while the sub-matrix is cluster-local — absent rows fall
back to the geometric distance), then cluster order by centroids. -/
def clusterBasedOptimization (dist : Dist) (orig : List GroupedAddress) (m : DMatrix)
    (addrs : List GroupedAddress) (start : Option (ℚ × ℚ)) : List GroupedAddress :=
  let clusterCount := (addrs.length + 29) / 30
  let clusters := createSmartClusters dist addrs clusterCount
  let optimizedClusters := clusters.map fun cl =>
    let clusterIndices := cl.map fun a => indexOfAddr addrs a
    let clusterMatrix := extractSubMatrix m clusterIndices
    nearestNeighborWithMatrix dist orig clusterMatrix cl none
  (optimizeClusterOrder dist optimizedClusters m addrs start).flatten

/-! ## Expansion, pipeline and metrics -/

/-- `expandGroupedRoute` (source lines 465–480). -/
def expandGroupedRoute (route : List GroupedAddress) : List Address :=
  route.flatMap fun s =>
    match s.members with
    | [] => [s.core]
    | ms => ms

/-- `optimizeRoute` (source lines 106–146).  The trivial short-circuit tests
the *input* stop count; the other tiers dispatch on the grouped count. -/
def optimizeRoute (dist : Dist) (prov : Provider) (hasApiKey : Bool)
    (addresses : List Address) (startLocation : Option (ℚ × ℚ)) : List Address :=
  if addresses.length ≤ 2 then addresses
  else
    let groupedAddresses := groupSameLocationAddresses addresses
    let distanceMatrix := buildDistanceMatrix dist prov hasApiKey groupedAddresses
    let optimizedRoute :=
      if groupedAddresses.length ≤ 25 then
        advancedTSPOptimization dist groupedAddresses distanceMatrix groupedAddresses startLocation
      else if groupedAddresses.length ≤ 100 then
        hybridOptimization dist groupedAddresses distanceMatrix groupedAddresses startLocation
      else
        clusterBasedOptimization dist groupedAddresses distanceMatrix groupedAddresses startLocation
    expandGroupedRoute
      (applyLocalSearchImprovements dist groupedAddresses distanceMatrix optimizedRoute)

structure RouteMetrics where
  totalDistance : ℚ
  estimatedTime : ℚ
deriving DecidableEq

/-! ## Definitions written from the spec's words (for comparison with the code) -/

/-- The first element attaining the minimum of `cost`, by a declarative
recursion: keep the earlier element on ties.  This is the spec's
"minimum matrix distance …; ties broken by earliest position in the input
order" reading of one greedy step. -/
def pickMinSpec (cost : α → ℚ) : List α → Option α
  | [] => none
  | [x] => some x
  | x :: y :: rest =>
    match pickMinSpec cost (y :: rest) with
    | some z => if cost x ≤ cost z then some x else some z
    | none => some x

/-- The amended reading of `nearestNeighborWithMatrix` (C5): start from the
first group within an absolute `0.001`-degree box of the supplied start
coordinate (else the first group), then repeatedly append the unvisited
group of minimum cost — the matrix entry when both ids resolve and the
entry is present and nonzero, else the geometric distance — breaking ties
by earliest input position. -/
def specNearestNeighborWithMatrixGo (dist : Dist) (orig : List GroupedAddress) (m : DMatrix) :
    Nat → GroupedAddress → List GroupedAddress → List GroupedAddress
  | 0, _, _ => []
  | _ + 1, _, [] => []
  | fuel + 1, cur, u =>
    match pickMinSpec (nnLookupDistance dist orig m cur) u with
    | none => []
    | some nearest =>
      nearest :: specNearestNeighborWithMatrixGo dist orig m fuel nearest (u.erase nearest)

def specNearestNeighborWithMatrix (dist : Dist) (orig : List GroupedAddress) (m : DMatrix)
    (addrs : List GroupedAddress) (start : Option (ℚ × ℚ)) : List GroupedAddress :=
  match addrs with
  | [] => []
  | [a] => [a]
  | a0 :: a1 :: rest =>
    let all := a0 :: a1 :: rest
    let cur := match start with
      | some s => toleranceStart all a0 s
      | none => a0
    cur :: specNearestNeighborWithMatrixGo dist orig m all.length cur (all.erase cur)

/-- Modelled from the spec (§4.8): per-edge travel cost for the metrics
calculator — "matrix lookup where the pair maps to matrix indices, else
geometric fallback". -/
def specEdgeCost (dist : Dist) (orig : List GroupedAddress) (m : DMatrix)
    (a b : Address) : ℚ :=
  match orig.findIdx? (fun x => x.core.id = a.id), orig.findIdx? (fun x => x.core.id = b.id) with
  | some i, some j =>
    match getQ m i j with
    | some v => v
    | none => dist a.latitude a.longitude b.latitude b.longitude
  | _, _ => dist a.latitude a.longitude b.latitude b.longitude

/-- Modelled from the spec (§4.8): `totalDistance` as the sum of
matrix-first consecutive-pair costs, `estimatedTime` as the sum over edges
of `edgeDistance / 40 × 60` plus the 5-minute per-stop constant. -/
def specCalculateRouteMetrics (dist : Dist) (orig : List GroupedAddress) (m : DMatrix) :
    List Address → RouteMetrics
  | [] => ⟨0, 0⟩
  | [_] => ⟨0, 0⟩
  | x :: y :: rest =>
    let d := specEdgeCost dist orig m x y
    let rec0 := specCalculateRouteMetrics dist orig m (y :: rest)
    ⟨d + rec0.totalDistance, (d / 40) * 60 + 5 + rec0.estimatedTime⟩

/-- Does `/,?\s*(apt|apartment|unit|suite|#)\s*[a-z0-9]+/i` match anywhere? -/
def hasKeywordMatch (l : List Char) : Bool :=
  l.tails.any fun t => (tryMatch1 t).isSome

/-- Does the string end in an ASCII letter? -/
def endsInAsciiLetter (l : List Char) : Bool :=
  match l.getLast? with
  | some c => isAsciiLetter c
  | none => false

/-! ## Concrete instances used by counterexamples and witnesses -/

/-- Computable stand-in distance for counterexamples/witnesses: squared
euclidean distance on raw coordinates.  On the inputs used below (points of
one meridian or a small planar patch) its comparisons agree with the
haversine formula's. -/
def sqDist : Dist := fun la1 ln1 la2 ln2 =>
  (la1 - la2) * (la1 - la2) + (ln1 - ln2) * (ln1 - ln2)

/-- A provider whose every batch request fails. -/
def noProvider : Provider := fun _ _ => none

/-- A (well-shaped, 1×1) provider response reporting 5000 m from the single
address to itself: a contract-conforming response with a nonzero
self-distance. -/
def selfLoopProvider : Provider := fun _ _ => some [[CellResult.ok 5000]]

/-- A provider answering every cell of every batch with `ok 0`. -/
def zeroProvider : Provider := fun _ _ =>
  some (List.replicate 10 (List.replicate 10 (CellResult.ok 0)))

def mkStop (idc : Char) (addr : List Char) (lat lng : ℚ) : Address :=
  ⟨String.mk [idc], String.mk addr, lat, lng, String.mk [], String.mk []⟩

/-- C2: three stops whose first and third share a normalized address key. -/
def exThree : List Address :=
  [mkStop 'a' ['1', ' ', 'x'] 0 0,
   mkStop 'b' ['2', ' ', 'y'] 5 5,
   mkStop 'c' ['1', ' ', 'z'] 0 0]

/-- C5: two groups inside the 0.001° start box; the second is strictly
nearer to the start but the first is found first. -/
def exG0 : GroupedAddress := ⟨mkStop 'p' ['p'] (9 / 10000) 0, []⟩
def exG1 : GroupedAddress := ⟨mkStop 'q' ['q'] (1 / 10000) 0, []⟩
def exNN : List GroupedAddress := [exG0, exG1]

/-- C6: four stops with an asymmetric matrix (`d(b,c) = 1` but
`d(c,b) = 1000`). -/
def wStop (idc : Char) : GroupedAddress := ⟨mkStop idc [idc] 0 0, []⟩
def c6Orig : List GroupedAddress := [wStop 'a', wStop 'b', wStop 'c', wStop 'd']
def c6M : DMatrix := [[0, 10, 1, 7], [3, 0, 1, 1], [2, 1000, 0, 10], [4, 5, 6, 0]]

/-- C7: six points where the iterated 2-opt loop differs from one pass. -/
def p7 : List (ℚ × ℚ) := [(24, 26), (2, 16), (32, 31), (25, 19), (30, 22), (37, 13)]
def ex6 : List GroupedAddress :=
  (List.range 6).map fun k =>
    ⟨⟨Nat.repr k, Nat.repr k, (p7.getD k (0, 0)).1, (p7.getD k (0, 0)).2,
      emptyStr, emptyStr⟩, []⟩
def ex6M : DMatrix := buildHaversineMatrix sqDist ex6

/-- C8: a two-stop route and a matrix whose entry (100) differs from the
geometric distance. -/
def c8r1 : Address := mkStop 'r' ['r'] 0 0
def c8r2 : Address := mkStop 's' ['s'] 1 0
def c8Orig : List GroupedAddress := [⟨c8r1, []⟩, ⟨c8r2, []⟩]
def c8M : DMatrix := [[0, 100], [100, 0]]

/-- C1: 101 stops with pairwise distinct (all-digit) address keys.  The
cluster seeds are positions 0, 25, 50, 75; stops 0 and 25 sit alone at
latitudes `0` and `1/20000` (5·10⁻⁵ degrees apart — below the `0.0001`
centroid-matching tolerance), stop 75 alone at latitude 2, and the other 98
stops at latitude 1. -/
def exCoord (k : Nat) : ℚ × ℚ :=
  if k = 0 then (0, 0)
  else if k = 25 then (1 / 20000, 0)
  else if k = 75 then (2, 0)
  else (1, 0)

def exAddr (k : Nat) : Address :=
  ⟨Nat.repr k, Nat.repr k, (exCoord k).1, (exCoord k).2, emptyStr, emptyStr⟩

def ex101 : List Address := (List.range 101).map exAddr

def exGAddr (k : Nat) : GroupedAddress := ⟨exAddr k, []⟩

def ex101G : List GroupedAddress := (List.range 101).map exGAddr

/-- The four clusters the seed assignment produces on `ex101G`. -/
def exClA : List GroupedAddress := [exGAddr 0]
def exClB : List GroupedAddress := [exGAddr 25]
def exClC : List GroupedAddress :=
  ((List.range 101).filter fun k => !(k == 0 || k == 25 || k == 75)).map exGAddr
def exClD : List GroupedAddress := [exGAddr 75]

/-- The matrix the pipeline builds for `ex101G` without an API key. -/
def ex101M : DMatrix := buildDistanceMatrix sqDist noProvider false ex101G

/-- C10 witness stops. -/
def exTwoRuns : List Address :=
  [mkStop 'u' ['u'] 0 0, mkStop 'v' ['v'] 1 1, mkStop 'w' ['w'] 2 0]

/-- C2 witness: a two-stop input (trivial tier). -/
def exTwo : List Address := [exAddr 0, exAddr 1]

/-- C2 witness: thirty stops with pairwise distinct keys (hybrid tier). -/
def exR30 : List Address := (List.range 30).map exAddr

/-- C9 witness: an already-normalized all-digit address. -/
def str123 : String := String.mk ['1', '2', '3']

/-- C9 counterexample: normalization strips one trailing letter per round. -/
def strAb : String := String.mk ['a', 'b']

/-- `calculateRouteMetrics` (source lines 395–413): per consecutive pair,
the *geometric* distance (no matrix is consulted), `5` minutes added per
edge, time at 40 km/h. -/
def calculateRouteMetrics (dist : Dist) : List Address → RouteMetrics
  | [] => ⟨0, 0⟩
  | [_] => ⟨0, 0⟩
  | x :: y :: rest =>
    let d := dist x.latitude x.longitude y.latitude y.longitude
    let rec0 := calculateRouteMetrics dist (y :: rest)
    ⟨d + rec0.totalDistance, (d / 40) * 60 + 5 + rec0.estimatedTime⟩

/-! ## Generic helper lemmas -/

theorem foldl_pick_mem {α β : Type _} (f : α × β → α → α × β)
    (hf : ∀ acc a, (f acc a).1 = acc.1 ∨ (f acc a).1 = a) :
    ∀ (l : List α) (acc : α × β), (l.foldl f acc).1 = acc.1 ∨ (l.foldl f acc).1 ∈ l := by
  intro l
  induction l with
  | nil => intro acc; exact Or.inl rfl
  | cons a t ih =>
    intro acc
    rcases ih (f acc a) with h | h
    · rcases hf acc a with h2 | h2
      · exact Or.inl (by simp [List.foldl_cons, h, h2])
      · exact Or.inr (by simp [List.foldl_cons, h, h2])
    · exact Or.inr (by simp [List.foldl_cons, h])

theorem foldl_pick_mem_opt {α β : Type _} (f : Option α × β → α → Option α × β)
    (hf : ∀ acc a, (f acc a).1 = acc.1 ∨ (f acc a).1 = some a) :
    ∀ (l : List α) (acc : Option α × β),
      (l.foldl f acc).1 = acc.1 ∨ ∃ a ∈ l, (l.foldl f acc).1 = some a := by
  intro l
  induction l with
  | nil => intro acc; exact Or.inl rfl
  | cons a t ih =>
    intro acc
    rcases ih (f acc a) with h | h
    · rcases hf acc a with h2 | h2
      · exact Or.inl (by simp [List.foldl_cons, h, h2])
      · exact Or.inr ⟨a, by simp, by simp [List.foldl_cons, h, h2]⟩
    · obtain ⟨x, hx, he⟩ := h
      exact Or.inr ⟨x, by simp [hx], by simpa [List.foldl_cons] using he⟩

theorem foldl_add_eq_sum (g : α → ℚ) :
    ∀ (l : List α) (init : ℚ), l.foldl (fun s a => s + g a) init = init + (l.map g).sum := by
  intro l
  induction l with
  | nil => intro init; simp
  | cons a t ih => intro init; simp [List.foldl_cons, ih, add_assoc]

/-! ## Membership facts for the greedy selectors -/

theorem findNearestAddress_mem {dist : Dist} {lat lng : ℚ} {l : List GroupedAddress}
    {x : GroupedAddress} (h : findNearestAddress dist lat lng l = some x) : x ∈ l := by
  cases l with
  | nil => simp [findNearestAddress] at h
  | cons a0 rest =>
    simp only [findNearestAddress, Option.some.injEq] at h
    have := foldl_pick_mem
      (fun (acc : GroupedAddress × ℚ) a =>
        let d := dist lat lng a.core.latitude a.core.longitude
        if d < acc.2 then (a, d) else acc)
      (by
        intro acc a
        by_cases hd : dist lat lng a.core.latitude a.core.longitude < acc.2 <;>
          simp [hd])
      (a0 :: rest) (a0, dist lat lng a0.core.latitude a0.core.longitude)
    rcases this with h2 | h2
    · rw [← h, h2]; exact List.mem_cons_self _ _
    · rw [← h]; exact h2

theorem findMinCandidate_mem {dist : Dist} {orig : List GroupedAddress} {m : DMatrix}
    {cur x : GroupedAddress} {l : List GroupedAddress}
    (h : findMinCandidate dist orig m cur l = some x) : x ∈ l := by
  cases l with
  | nil => simp [findMinCandidate] at h
  | cons c0 rest =>
    simp only [findMinCandidate, Option.some.injEq] at h
    have := foldl_pick_mem
      (fun (acc : GroupedAddress × Option ℚ) cand =>
        let d := nnLookupDistance dist orig m cur cand
        match acc.2 with
        | none => (cand, some d)
        | some s => if d < s then (cand, some d) else acc)
      (by
        intro acc a
        cases hacc : acc.2 with
        | none => simp [hacc]
        | some s =>
          by_cases hd : nnLookupDistance dist orig m cur a < s <;>
            simp [hacc, hd])
      (c0 :: rest) (c0, none)
    rcases this with h2 | h2
    · rw [← h, h2]; exact List.mem_cons_self _ _
    · rw [← h]; exact h2

theorem findMinGreedy_mem {dist : Dist} {orig : List GroupedAddress} {m : DMatrix}
    {cur x : GroupedAddress} {l : List GroupedAddress}
    (h : findMinGreedy dist orig m cur l = some x) : x ∈ l := by
  have := foldl_pick_mem_opt
    (fun (acc : Option GroupedAddress × Option ℚ) cand =>
      let cost := nnLookupDistance dist orig m cur cand
      match acc.2 with
      | none => (some cand, some cost)
      | some s => if cost < s then (some cand, some cost) else acc)
    (by
      intro acc a
      cases hacc : acc.2 with
      | none => simp [hacc]
      | some s =>
        by_cases hd : nnLookupDistance dist orig m cur a < s <;>
          simp [hacc, hd])
    l (none, none)
  unfold findMinGreedy at h
  rcases this with h2 | h2
  · rw [h2] at h; exact absurd h (by simp)
  · obtain ⟨a, ha, he⟩ := h2
    rw [he] at h
    cases h; exact ha

theorem findMinGreedy_isSome {dist : Dist} {orig : List GroupedAddress} {m : DMatrix}
    {cur : GroupedAddress} {l : List GroupedAddress} (h : l ≠ []) :
    (findMinGreedy dist orig m cur l).isSome := by
  cases l with
  | nil => exact absurd rfl h
  | cons a t =>
    have step : ∀ (u : List GroupedAddress) (acc : Option GroupedAddress × Option ℚ),
        acc.1.isSome → acc.2.isSome →
        ((u.foldl
          (fun (acc : Option GroupedAddress × Option ℚ) cand =>
            let cost := nnLookupDistance dist orig m cur cand
            match acc.2 with
            | none => (some cand, some cost)
            | some s => if cost < s then (some cand, some cost) else acc)
          acc).1).isSome := by
      intro u
      induction u with
      | nil => intro acc h1 _; exact h1
      | cons b t2 ih =>
        intro acc h1 h2
        rw [List.foldl_cons]
        cases hacc : acc.2 with
        | none => simp [hacc] at h2
        | some s =>
          by_cases hd : nnLookupDistance dist orig m cur b < s
          · exact ih _ (by simp [hacc, hd]) (by simp [hacc, hd])
          · exact ih _ (by simpa [hacc, hd]) (by simp [hacc, hd])
    unfold findMinGreedy
    rw [List.foldl_cons]
    exact step t _ (by simp) (by simp)

/-! ## Permutation lemmas: every construction and improvement step permutes -/

theorem nnTSPGo_perm (dist : Dist) :
    ∀ (fuel : Nat) (cur : GroupedAddress) (u : List GroupedAddress),
      u.length ≤ fuel → List.Perm (nnTSPGo dist fuel cur u) u := by
  intro fuel
  induction fuel with
  | zero =>
    intro cur u hu
    rw [Nat.le_zero, List.length_eq_zero] at hu
    subst hu; exact List.Perm.refl _
  | succ f ih =>
    intro cur u hu
    cases u with
    | nil => exact List.Perm.refl _
    | cons x xs =>
      have hsome : findNearestAddress dist cur.core.latitude cur.core.longitude (x :: xs) =
          some (((x :: xs).foldl
            (fun (acc : GroupedAddress × ℚ) a =>
              let d := dist cur.core.latitude cur.core.longitude a.core.latitude a.core.longitude
              if d < acc.2 then (a, d) else acc)
            (x, dist cur.core.latitude cur.core.longitude x.core.latitude x.core.longitude)).1) := rfl
      have hmem : (((x :: xs).foldl
            (fun (acc : GroupedAddress × ℚ) a =>
              let d := dist cur.core.latitude cur.core.longitude a.core.latitude a.core.longitude
              if d < acc.2 then (a, d) else acc)
            (x, dist cur.core.latitude cur.core.longitude x.core.latitude x.core.longitude)).1) ∈
          x :: xs := findNearestAddress_mem hsome
      have herase : (((x :: xs)).erase (((x :: xs).foldl
            (fun (acc : GroupedAddress × ℚ) a =>
              let d := dist cur.core.latitude cur.core.longitude a.core.latitude a.core.longitude
              if d < acc.2 then (a, d) else acc)
            (x, dist cur.core.latitude cur.core.longitude x.core.latitude x.core.longitude)).1)).length ≤ f := by
        rw [List.length_erase_of_mem hmem]
        simp only [List.length_cons] at hu ⊢
        omega
      refine List.Perm.trans (List.Perm.cons _ (ih _ _ herase)) ?_
      exact (List.perm_cons_erase hmem).symm

theorem nearestNeighborWithMatrixGo_perm (dist : Dist) (orig : List GroupedAddress)
    (m : DMatrix) :
    ∀ (fuel : Nat) (cur : GroupedAddress) (u : List GroupedAddress),
      u.length ≤ fuel → List.Perm (nearestNeighborWithMatrixGo dist orig m fuel cur u) u := by
  intro fuel
  induction fuel with
  | zero =>
    intro cur u hu
    rw [Nat.le_zero, List.length_eq_zero] at hu
    subst hu; exact List.Perm.refl _
  | succ f ih =>
    intro cur u hu
    cases u with
    | nil => exact List.Perm.refl _
    | cons x xs =>
      cases hsel : findMinCandidate dist orig m cur (x :: xs) with
      | none => simp [findMinCandidate] at hsel
      | some nearest =>
        have hmem := findMinCandidate_mem hsel
        have herase : ((x :: xs).erase nearest).length ≤ f := by
          rw [List.length_erase_of_mem hmem]
          simp only [List.length_cons] at hu ⊢
          omega
        have heq : nearestNeighborWithMatrixGo dist orig m (f + 1) cur (x :: xs) =
            nearest :: nearestNeighborWithMatrixGo dist orig m f nearest ((x :: xs).erase nearest) := by
          simp [nearestNeighborWithMatrixGo, hsel]
        rw [heq]
        exact ((ih _ _ herase).cons _).trans (List.perm_cons_erase hmem).symm

theorem greedyTSPGo_perm (dist : Dist) (orig : List GroupedAddress) (m : DMatrix) :
    ∀ (fuel : Nat) (cur : GroupedAddress) (u : List GroupedAddress),
      u.length ≤ fuel → List.Perm (greedyTSPGo dist orig m fuel cur u) u := by
  intro fuel
  induction fuel with
  | zero =>
    intro cur u hu
    rw [Nat.le_zero, List.length_eq_zero] at hu
    subst hu; exact List.Perm.refl _
  | succ f ih =>
    intro cur u hu
    cases u with
    | nil => exact List.Perm.refl _
    | cons x xs =>
      cases hsel : findMinGreedy dist orig m cur (x :: xs) with
      | none =>
        have := @findMinGreedy_isSome dist orig m cur (x :: xs) (by simp)
        rw [hsel] at this; simp at this
      | some nearest =>
        have hmem := findMinGreedy_mem hsel
        have herase : ((x :: xs).erase nearest).length ≤ f := by
          rw [List.length_erase_of_mem hmem]
          simp only [List.length_cons] at hu ⊢
          omega
        have heq : greedyTSPGo dist orig m (f + 1) cur (x :: xs) =
            nearest :: greedyTSPGo dist orig m f nearest ((x :: xs).erase nearest) := by
          simp [greedyTSPGo, hsel]
        rw [heq]
        exact ((ih _ _ herase).cons _).trans (List.perm_cons_erase hmem).symm

theorem nearestNeighborTSP_perm (dist : Dist) (addrs : List GroupedAddress)
    (start : Option (ℚ × ℚ)) : List.Perm (nearestNeighborTSP dist addrs start) addrs := by
  cases addrs with
  | nil => exact List.Perm.refl _
  | cons a0 rest =>
    have hcur : ∀ cur : GroupedAddress, cur ∈ a0 :: rest →
        List.Perm (cur :: nnTSPGo dist (a0 :: rest).length cur ((a0 :: rest).erase cur))
          (a0 :: rest) := by
      intro cur hcur
      have herase : ((a0 :: rest).erase cur).length ≤ (a0 :: rest).length := by
        rw [List.length_erase_of_mem hcur]; omega
      exact ((nnTSPGo_perm dist _ cur _ herase).cons _).trans (List.perm_cons_erase hcur).symm
    cases start with
    | none => exact hcur a0 (List.mem_cons_self _ _)
    | some s =>
      show List.Perm (((findNearestAddress dist s.1 s.2 (a0 :: rest)).getD a0) ::
        nnTSPGo dist _ _ _) _
      cases hf : findNearestAddress dist s.1 s.2 (a0 :: rest) with
      | none => simpa [hf] using hcur a0 (List.mem_cons_self _ _)
      | some x => simpa [hf] using hcur x (findNearestAddress_mem hf)

theorem toleranceStart_mem (addrs : List GroupedAddress) (a0 : GroupedAddress)
    (s : ℚ × ℚ) (h0 : a0 ∈ addrs) : toleranceStart addrs a0 s ∈ addrs := by
  unfold toleranceStart
  cases hf : addrs.find? fun a =>
      decide (|a.core.latitude - s.1| < 1 / 1000) &&
      decide (|a.core.longitude - s.2| < 1 / 1000) with
  | none => simpa using h0
  | some x => simpa using List.mem_of_find?_eq_some hf

theorem nearestNeighborWithMatrix_perm (dist : Dist) (orig : List GroupedAddress)
    (m : DMatrix) (addrs : List GroupedAddress) (start : Option (ℚ × ℚ)) :
    List.Perm (nearestNeighborWithMatrix dist orig m addrs start) addrs := by
  cases addrs with
  | nil => exact List.Perm.refl _
  | cons a0 rest =>
    cases rest with
    | nil => exact List.Perm.refl _
    | cons a1 rest2 =>
      have hcur : ∀ cur : GroupedAddress, cur ∈ a0 :: a1 :: rest2 →
          List.Perm (cur :: nearestNeighborWithMatrixGo dist orig m (a0 :: a1 :: rest2).length cur
            ((a0 :: a1 :: rest2).erase cur)) (a0 :: a1 :: rest2) := by
        intro cur hc
        have herase : ((a0 :: a1 :: rest2).erase cur).length ≤ (a0 :: a1 :: rest2).length := by
          rw [List.length_erase_of_mem hc]; omega
        exact ((nearestNeighborWithMatrixGo_perm dist orig m _ cur _ herase).cons _).trans
          (List.perm_cons_erase hc).symm
      cases start with
      | none => exact hcur a0 (List.mem_cons_self _ _)
      | some s =>
        exact hcur _ (toleranceStart_mem _ _ _ (List.mem_cons_self _ _))

theorem greedyTSP_perm (dist : Dist) (orig : List GroupedAddress) (m : DMatrix)
    (addrs : List GroupedAddress) (start : Option (ℚ × ℚ)) :
    List.Perm (greedyTSP dist orig m addrs start) addrs := by
  unfold greedyTSP
  by_cases h3 : addrs.length ≤ 3
  · simpa [h3] using nearestNeighborWithMatrix_perm dist orig m addrs start
  · simp only [h3, if_false]
    cases addrs with
    | nil => exact List.Perm.refl _
    | cons a0 rest =>
      have hcur : ∀ cur : GroupedAddress, cur ∈ a0 :: rest →
          List.Perm (cur :: greedyTSPGo dist orig m (a0 :: rest).length cur
            ((a0 :: rest).erase cur)) (a0 :: rest) := by
        intro cur hc
        have herase : ((a0 :: rest).erase cur).length ≤ (a0 :: rest).length := by
          rw [List.length_erase_of_mem hc]; omega
        exact ((greedyTSPGo_perm dist orig m _ cur _ herase).cons _).trans
          (List.perm_cons_erase hc).symm
      cases start with
      | none => exact hcur a0 (List.mem_cons_self _ _)
      | some s => exact hcur _ (toleranceStart_mem _ _ _ (List.mem_cons_self _ _))

/-- The 2-opt reversal permutes the route whenever `i ≤ j`. -/
theorem twoOptSwapAt_perm {α : Type _} (r : List α) (i j : Nat) (hij : i ≤ j) :
    List.Perm (twoOptSwapAt r i j) r := by
  unfold twoOptSwapAt
  rw [List.append_assoc]
  conv_rhs => rw [← List.take_append_drop i r]
  refine List.Perm.append_left _ ?_
  conv_rhs => rw [← List.take_append_drop (j + 1 - i) (r.drop i)]
  rw [List.drop_drop]
  have : i + (j + 1 - i) = j + 1 := by omega
  rw [this]
  exact List.Perm.append_right _ (List.reverse_perm _)

theorem pairList_bounds {n : Nat} {p : Nat × Nat} (hp : p ∈ pairList n) :
    1 ≤ p.1 ∧ p.1 < p.2 ∧ p.2 + 1 < n := by
  obtain ⟨i, j⟩ := p
  simp only [pairList, List.mem_flatMap, List.mem_map, List.mem_filter,
    List.mem_range, decide_eq_true_eq] at hp
  obtain ⟨a, ⟨ha1, ha2⟩, b, ⟨hb1, hb2⟩, he⟩ := hp
  cases he
  exact ⟨ha2, by omega, by omega⟩

theorem twoOptPass_perm (dist : Dist) (orig : List GroupedAddress) (m : DMatrix)
    (r : List GroupedAddress) : List.Perm (twoOptPass dist orig m r).1 r := by
  unfold twoOptPass
  have main : ∀ (ps : List (Nat × Nat)) (acc : List GroupedAddress × Bool),
      (∀ p ∈ ps, p.1 ≤ p.2) → List.Perm acc.1 r →
      List.Perm (ps.foldl
        (fun (acc : List GroupedAddress × Bool) ij =>
          let cur := acc.1
          let currentDist :=
            getMatrixDistance dist orig m (cur.getD (ij.1 - 1) dummyAddress) (cur.getD ij.1 dummyAddress) +
            getMatrixDistance dist orig m (cur.getD ij.2 dummyAddress) (cur.getD (ij.2 + 1) dummyAddress)
          let newDist :=
            getMatrixDistance dist orig m (cur.getD (ij.1 - 1) dummyAddress) (cur.getD ij.2 dummyAddress) +
            getMatrixDistance dist orig m (cur.getD ij.1 dummyAddress) (cur.getD (ij.2 + 1) dummyAddress)
          if newDist < currentDist then (twoOptSwapAt cur ij.1 ij.2, true) else (cur, acc.2))
        acc).1 r := by
    intro ps
    induction ps with
    | nil => intro acc _ hacc; exact hacc
    | cons p t ih =>
      intro acc hps hacc
      rw [List.foldl_cons]
      refine ih _ (fun q hq => hps q (List.mem_cons_of_mem _ hq)) ?_
      dsimp only
      split
      · exact (twoOptSwapAt_perm acc.1 p.1 p.2 (hps p (List.mem_cons_self _ _))).trans hacc
      · exact hacc
  exact main _ _ (fun p hp => Nat.le_of_lt (pairList_bounds hp).2.1) (List.Perm.refl _)

theorem apply2OptImprovementGo_perm (dist : Dist) (orig : List GroupedAddress) (m : DMatrix) :
    ∀ (fuel : Nat) (r : List GroupedAddress),
      List.Perm (apply2OptImprovementGo dist orig m fuel r) r := by
  intro fuel
  induction fuel with
  | zero => intro r; exact List.Perm.refl _
  | succ f ih =>
    intro r
    show List.Perm
      (if (twoOptPass dist orig m r).2 = true then
        apply2OptImprovementGo dist orig m f (twoOptPass dist orig m r).1
      else (twoOptPass dist orig m r).1) r
    by_cases hf2 : (twoOptPass dist orig m r).2 = true
    · simpa [hf2] using (ih _).trans (twoOptPass_perm dist orig m r)
    · simpa [hf2] using twoOptPass_perm dist orig m r

theorem apply2OptImprovement_perm (dist : Dist) (orig : List GroupedAddress) (m : DMatrix)
    (route : List GroupedAddress) :
    List.Perm (apply2OptImprovement dist orig m route) route := by
  unfold apply2OptImprovement
  by_cases h4 : route.length < 4
  · simp [h4]
  · simpa [h4] using apply2OptImprovementGo_perm dist orig m (min 20 route.length) route

theorem orOptPairs_bounds {n : Nat} {p : Nat × Nat} (hp : p ∈ orOptPairs n) :
    1 ≤ p.1 ∧ p.1 < n - 1 ∧ p.2 < n - 1 := by
  obtain ⟨i, j⟩ := p
  simp only [orOptPairs, List.mem_flatMap, List.mem_map, List.mem_filter,
    List.mem_range, decide_eq_true_eq] at hp
  obtain ⟨a, ⟨ha1, ha2⟩, b, hb, he⟩ := hp
  cases he
  exact ⟨ha2, ha1, hb⟩

/-- Or-opt relocation permutes the route whenever `i` is in range. -/
theorem orOptRelocate_perm (r : List GroupedAddress) (i j : Nat) (hi : i < r.length) :
    List.Perm (orOptRelocate r i j) r := by
  unfold orOptRelocate
  have h1 : List.Perm (((r.eraseIdx i).take j) ++ [r.getD i dummyAddress] ++ ((r.eraseIdx i).drop j))
      (r.getD i dummyAddress :: r.eraseIdx i) := by
    have := @List.perm_middle _ (r.getD i dummyAddress)
      ((r.eraseIdx i).take j) ((r.eraseIdx i).drop j)
    simpa [List.take_append_drop] using this
  refine h1.trans ?_
  have hg : r.getD i dummyAddress = r[i] := by
    simp [List.getD_eq_getElem?_getD, List.getElem?_eq_getElem hi]
  rw [hg, List.eraseIdx_eq_take_drop_succ]
  have hr : r = r.take i ++ (r[i] :: r.drop (i + 1)) := by
    conv_lhs => rw [← List.take_append_drop i r]
    rw [List.getElem_cons_drop]
  conv_rhs => rw [hr]
  exact List.perm_middle.symm

theorem orOptStep_perm {dist : Dist} {orig : List GroupedAddress} {m : DMatrix}
    {r r2 : List GroupedAddress} (h : orOptStep dist orig m r = some r2) :
    List.Perm r2 r := by
  unfold orOptStep at h
  cases hf : (orOptPairs r.length).find? fun ij =>
      decide (calculateTotalDistance dist orig m (orOptRelocate r ij.1 ij.2) <
        calculateTotalDistance dist orig m r) with
  | none => rw [hf] at h; exact Option.noConfusion h
  | some p =>
    rw [hf] at h
    simp only [Option.map_some', Option.some.injEq] at h
    subst h
    have hb := orOptPairs_bounds (List.mem_of_find?_eq_some hf)
    exact orOptRelocate_perm r p.1 p.2 (by omega)

theorem orOptStep_total_lt {dist : Dist} {orig : List GroupedAddress} {m : DMatrix}
    {r r2 : List GroupedAddress} (h : orOptStep dist orig m r = some r2) :
    calculateTotalDistance dist orig m r2 < calculateTotalDistance dist orig m r := by
  unfold orOptStep at h
  cases hf : (orOptPairs r.length).find? fun ij =>
      decide (calculateTotalDistance dist orig m (orOptRelocate r ij.1 ij.2) <
        calculateTotalDistance dist orig m r) with
  | none => rw [hf] at h; exact Option.noConfusion h
  | some p =>
    rw [hf] at h
    simp only [Option.map_some', Option.some.injEq] at h
    subst h
    simpa using List.find?_some hf

theorem applyOrOptImprovementGo_perm (dist : Dist) (orig : List GroupedAddress) (m : DMatrix) :
    ∀ (fuel : Nat) (r : List GroupedAddress),
      List.Perm (applyOrOptImprovementGo dist orig m fuel r) r := by
  intro fuel
  induction fuel with
  | zero => intro r; exact List.Perm.refl _
  | succ f ih =>
    intro r
    show List.Perm
      (match orOptStep dist orig m r with
       | some r2 => applyOrOptImprovementGo dist orig m f r2
       | none => r) r
    cases hs : orOptStep dist orig m r with
    | none => exact List.Perm.refl _
    | some r2 => exact (ih r2).trans (orOptStep_perm hs)

theorem applyOrOptImprovementGo_total_le (dist : Dist) (orig : List GroupedAddress)
    (m : DMatrix) :
    ∀ (fuel : Nat) (r : List GroupedAddress),
      calculateTotalDistance dist orig m (applyOrOptImprovementGo dist orig m fuel r) ≤
        calculateTotalDistance dist orig m r := by
  intro fuel
  induction fuel with
  | zero => intro r; exact le_refl _
  | succ f ih =>
    intro r
    show calculateTotalDistance dist orig m
      (match orOptStep dist orig m r with
       | some r2 => applyOrOptImprovementGo dist orig m f r2
       | none => r) ≤ calculateTotalDistance dist orig m r
    cases hs : orOptStep dist orig m r with
    | none => exact le_refl _
    | some r2 => exact le_of_lt (lt_of_le_of_lt (ih r2) (orOptStep_total_lt hs))

theorem applyOrOptImprovement_perm (dist : Dist) (orig : List GroupedAddress) (m : DMatrix)
    (route : List GroupedAddress) :
    List.Perm (applyOrOptImprovement dist orig m route) route := by
  unfold applyOrOptImprovement
  by_cases h4 : route.length < 4
  · simp [h4]
  · simpa [h4] using applyOrOptImprovementGo_perm dist orig m 10 route

theorem applyLocalSearchImprovementsGo_perm (dist : Dist) (orig : List GroupedAddress)
    (m : DMatrix) :
    ∀ (fuel : Nat) (r : List GroupedAddress),
      List.Perm (applyLocalSearchImprovementsGo dist orig m fuel r) r := by
  intro fuel
  induction fuel with
  | zero => intro r; exact List.Perm.refl _
  | succ f ih =>
    intro r
    have hperm : List.Perm
        (applyOrOptImprovement dist orig m (apply2OptImprovement dist orig m r)) r :=
      (applyOrOptImprovement_perm dist orig m _).trans (apply2OptImprovement_perm dist orig m r)
    show List.Perm
      (if calculateTotalDistance dist orig m
            (applyOrOptImprovement dist orig m (apply2OptImprovement dist orig m r)) <
          calculateTotalDistance dist orig m r then
        applyLocalSearchImprovementsGo dist orig m f
          (applyOrOptImprovement dist orig m (apply2OptImprovement dist orig m r))
      else applyOrOptImprovement dist orig m (apply2OptImprovement dist orig m r)) r
    split
    · exact (ih _).trans hperm
    · exact hperm

theorem applyLocalSearchImprovements_perm (dist : Dist) (orig : List GroupedAddress)
    (m : DMatrix) (route : List GroupedAddress) :
    List.Perm (applyLocalSearchImprovements dist orig m route) route :=
  applyLocalSearchImprovementsGo_perm dist orig m 50 route

theorem christofidesApproximation_perm (dist : Dist) (orig : List GroupedAddress)
    (m : DMatrix) (addrs : List GroupedAddress) (start : Option (ℚ × ℚ)) :
    List.Perm (christofidesApproximation dist orig m addrs start) addrs := by
  unfold christofidesApproximation
  split
  · exact greedyTSP_perm dist orig m addrs start
  · exact (apply2OptImprovement_perm dist orig m _).trans
      (nearestNeighborWithMatrix_perm dist orig m addrs start)

theorem pickBestRoute_mem (dist : Dist) (orig : List GroupedAddress) (m : DMatrix)
    (results : List (List GroupedAddress)) (h : results ≠ []) :
    pickBestRoute dist orig m results ∈ results := by
  cases results with
  | nil => exact absurd rfl h
  | cons r0 rest =>
    show (((r0 :: rest).foldl
      (fun (acc : List GroupedAddress × ℚ) r =>
        let d := calculateTotalDistance dist orig m r
        if d < acc.2 then (r, d) else acc)
      (r0, calculateTotalDistance dist orig m r0)).1) ∈ r0 :: rest
    have := foldl_pick_mem
      (fun (acc : List GroupedAddress × ℚ) r =>
        let d := calculateTotalDistance dist orig m r
        if d < acc.2 then (r, d) else acc)
      (by
        intro acc a
        by_cases hd : calculateTotalDistance dist orig m a < acc.2 <;> simp [hd])
      (r0 :: rest) (r0, calculateTotalDistance dist orig m r0)
    rcases this with h2 | h2
    · rw [h2]; exact List.mem_cons_self _ _
    · exact h2

theorem advancedTSPOptimization_perm (dist : Dist) (orig : List GroupedAddress)
    (m : DMatrix) (addrs : List GroupedAddress) (start : Option (ℚ × ℚ)) :
    List.Perm (advancedTSPOptimization dist orig m addrs start) addrs := by
  have hmem := pickBestRoute_mem dist orig m
    [nearestNeighborWithMatrix dist orig m addrs start,
     greedyTSP dist orig m addrs start,
     christofidesApproximation dist orig m addrs start] (by simp)
  unfold advancedTSPOptimization
  simp only [List.mem_cons, List.not_mem_nil, or_false] at hmem
  rcases hmem with h | h | h
  · rw [h]; exact nearestNeighborWithMatrix_perm dist orig m addrs start
  · rw [h]; exact greedyTSP_perm dist orig m addrs start
  · rw [h]; exact christofidesApproximation_perm dist orig m addrs start

theorem hybridOptimization_perm (dist : Dist) (orig : List GroupedAddress)
    (m : DMatrix) (addrs : List GroupedAddress) (start : Option (ℚ × ℚ)) :
    List.Perm (hybridOptimization dist orig m addrs start) addrs :=
  ((applyOrOptImprovement_perm dist orig m _).trans
    (apply2OptImprovement_perm dist orig m _)).trans
    (nearestNeighborWithMatrix_perm dist orig m addrs start)

/-! ## The strict-`<` fold selects the earliest minimum (C5) -/

theorem pickMinSpec_isSome (cost : α → ℚ) :
    ∀ (l : List α), l ≠ [] → (pickMinSpec cost l).isSome := by
  intro l
  induction l with
  | nil => intro h; exact absurd rfl h
  | cons a t ih =>
    intro _
    cases t with
    | nil => simp [pickMinSpec]
    | cons b t2 =>
      have := ih (by simp)
      cases hz : pickMinSpec cost (b :: t2) with
      | none => rw [hz] at this; simp at this
      | some z =>
        by_cases hle : cost a ≤ cost z <;> simp [pickMinSpec, hz, hle]

theorem pickMinSpec_le (cost : α → ℚ) :
    ∀ (l : List α) (y : α), pickMinSpec cost l = some y → ∀ x ∈ l, cost y ≤ cost x := by
  intro l
  induction l with
  | nil => intro y hy; simp [pickMinSpec] at hy
  | cons a t ih =>
    intro y hy x hx
    cases t with
    | nil =>
      simp only [pickMinSpec, Option.some.injEq] at hy
      subst hy
      rcases List.mem_singleton.mp hx with rfl
      exact le_refl _
    | cons b t2 =>
      cases hz : pickMinSpec cost (b :: t2) with
      | none =>
        have := pickMinSpec_isSome cost (b :: t2) (by simp)
        rw [hz] at this; simp at this
      | some z =>
        simp only [pickMinSpec, hz] at hy
        by_cases hle : cost a ≤ cost z
        · rw [if_pos hle] at hy
          cases hy
          rcases List.mem_cons.mp hx with rfl | hx2
          · exact le_refl _
          · exact le_trans hle (ih z hz x hx2)
        · rw [if_neg hle] at hy
          cases hy
          rcases List.mem_cons.mp hx with rfl | hx2
          · exact le_of_lt (lt_of_not_le hle)
          · exact ih y hz x hx2

theorem foldl_strictmin_eq_pickMinSpec (cost : α → ℚ) :
    ∀ (l : List α) (b : α),
      (l.foldl
        (fun (acc : α × Option ℚ) cand =>
          let d := cost cand
          match acc.2 with
          | none => (cand, some d)
          | some s => if d < s then (cand, some d) else acc)
        (b, some (cost b))).1 = (pickMinSpec cost (b :: l)).getD b := by
  intro l
  induction l with
  | nil => intro b; simp [pickMinSpec]
  | cons c cs ih =>
    intro b
    rw [List.foldl_cons]
    show ((cs.foldl
        (fun (acc : α × Option ℚ) cand =>
          let d := cost cand
          match acc.2 with
          | none => (cand, some d)
          | some s => if d < s then (cand, some d) else acc)
        (if cost c < cost b then (c, some (cost c)) else (b, some (cost b))))).1 =
      (pickMinSpec cost (b :: c :: cs)).getD b
    by_cases hlt : cost c < cost b
    · rw [if_pos hlt, ih c]
      cases hz : pickMinSpec cost (c :: cs) with
      | none =>
        have := pickMinSpec_isSome cost (c :: cs) (by simp)
        rw [hz] at this; simp at this
      | some z =>
        have hzc : cost z ≤ cost c := pickMinSpec_le cost _ z hz c (List.mem_cons_self _ _)
        have hnb : ¬ cost b ≤ cost z := by
          intro hb
          exact absurd (lt_of_le_of_lt (le_trans hb hzc) hlt) (lt_irrefl _)
        show (some z).getD c = (pickMinSpec cost (b :: c :: cs)).getD b
        simp only [pickMinSpec, hz, hnb, if_false]
        rfl
    · rw [if_neg hlt, ih b]
      have hbc : cost b ≤ cost c := le_of_not_lt hlt
      cases cs with
      | nil =>
        show (pickMinSpec cost [b]).getD b = (pickMinSpec cost [b, c]).getD b
        simp [pickMinSpec, hbc]
      | cons d0 ds =>
        cases hw : pickMinSpec cost (d0 :: ds) with
        | none =>
          have := pickMinSpec_isSome cost (d0 :: ds) (by simp)
          rw [hw] at this; simp at this
        | some w =>
          show (pickMinSpec cost (b :: d0 :: ds)).getD b =
            (pickMinSpec cost (b :: c :: d0 :: ds)).getD b
          by_cases hcw : cost c ≤ cost w
          · have hbw : cost b ≤ cost w := le_trans hbc hcw
            simp [pickMinSpec, hw, hcw, hbw, hbc]
          · simp [pickMinSpec, hw, hcw]

theorem findMinCandidate_eq_pickMinSpec (dist : Dist) (orig : List GroupedAddress)
    (m : DMatrix) (cur : GroupedAddress) (u : List GroupedAddress) :
    findMinCandidate dist orig m cur u =
      pickMinSpec (nnLookupDistance dist orig m cur) u := by
  cases u with
  | nil => rfl
  | cons c0 rest =>
    show some ((rest.foldl
        (fun (acc : GroupedAddress × Option ℚ) cand =>
          let d := nnLookupDistance dist orig m cur cand
          match acc.2 with
          | none => (cand, some d)
          | some s => if d < s then (cand, some d) else acc)
        (c0, some (nnLookupDistance dist orig m cur c0))).1) =
      pickMinSpec (nnLookupDistance dist orig m cur) (c0 :: rest)
    rw [foldl_strictmin_eq_pickMinSpec]
    cases hz : pickMinSpec (nnLookupDistance dist orig m cur) (c0 :: rest) with
    | none =>
      have := pickMinSpec_isSome (nnLookupDistance dist orig m cur) (c0 :: rest) (by simp)
      rw [hz] at this; simp at this
    | some z => rfl

theorem nearestNeighborWithMatrixGo_eq_spec (dist : Dist) (orig : List GroupedAddress)
    (m : DMatrix) :
    ∀ (fuel : Nat) (cur : GroupedAddress) (u : List GroupedAddress),
      nearestNeighborWithMatrixGo dist orig m fuel cur u =
        specNearestNeighborWithMatrixGo dist orig m fuel cur u := by
  intro fuel
  induction fuel with
  | zero => intro cur u; rfl
  | succ f ih =>
    intro cur u
    cases u with
    | nil => rfl
    | cons x xs =>
      show (match findMinCandidate dist orig m cur (x :: xs) with
        | none => []
        | some nearest =>
          nearest :: nearestNeighborWithMatrixGo dist orig m f nearest ((x :: xs).erase nearest)) = _
      rw [findMinCandidate_eq_pickMinSpec]
      cases hz : pickMinSpec (nnLookupDistance dist orig m cur) (x :: xs) with
      | none =>
        show ([] : List GroupedAddress) =
          (match pickMinSpec (nnLookupDistance dist orig m cur) (x :: xs) with
          | none => []
          | some nearest =>
            nearest :: specNearestNeighborWithMatrixGo dist orig m f nearest ((x :: xs).erase nearest))
        rw [hz]
      | some z =>
        show z :: nearestNeighborWithMatrixGo dist orig m f z ((x :: xs).erase z) = _
        rw [ih]
        show _ = (match pickMinSpec (nnLookupDistance dist orig m cur) (x :: xs) with
          | none => []
          | some nearest =>
            nearest :: specNearestNeighborWithMatrixGo dist orig m f nearest ((x :: xs).erase nearest))
        rw [hz]

/-! ## Metrics formula (C8) -/

theorem calculateRouteMetrics_formula (dist : Dist) :
    ∀ (route : List Address),
      (calculateRouteMetrics dist route).totalDistance =
        totalBy (fun a b => dist a.latitude a.longitude b.latitude b.longitude) route ∧
      (calculateRouteMetrics dist route).estimatedTime =
        (3 / 2) * totalBy (fun a b => dist a.latitude a.longitude b.latitude b.longitude) route +
          5 * ((route.length - 1 : ℕ) : ℚ) := by
  intro route
  induction route with
  | nil => simp [calculateRouteMetrics, totalBy]
  | cons x t ih =>
    cases t with
    | nil => simp [calculateRouteMetrics, totalBy]
    | cons y rest =>
      obtain ⟨ih1, ih2⟩ := ih
      constructor
      · show dist x.latitude x.longitude y.latitude y.longitude +
            (calculateRouteMetrics dist (y :: rest)).totalDistance = _
        rw [ih1]
        rfl
      · show (dist x.latitude x.longitude y.latitude y.longitude / 40) * 60 + 5 +
            (calculateRouteMetrics dist (y :: rest)).estimatedTime = _
        rw [ih2]
        show _ = (3 / 2) *
          (dist x.latitude x.longitude y.latitude y.longitude +
            totalBy (fun a b => dist a.latitude a.longitude b.latitude b.longitude) (y :: rest)) +
          5 * (((y :: rest).length + 1 - 1 : ℕ) : ℚ)
        have hn : (((y :: rest).length + 1 - 1 : ℕ) : ℚ) =
            (((y :: rest).length - 1 : ℕ) : ℚ) + 1 := by
          simp only [List.length_cons, Nat.add_sub_cancel]
          push_cast
          ring
        rw [hn]
        ring

/-! ## Route-total decomposition and 2-opt monotonicity under symmetry (C6) -/

theorem totalBy_cons_headD (c : α → α → ℚ) (d x : α) (t : List α) (ht : t ≠ []) :
    totalBy c (x :: t) = c x (t.headD d) + totalBy c t := by
  cases t with
  | nil => exact absurd rfl ht
  | cons y t2 => rfl

theorem totalBy_append (c : α → α → ℚ) (d : α) :
    ∀ (xs ys : List α), xs ≠ [] → ys ≠ [] →
      totalBy c (xs ++ ys) =
        totalBy c xs + c (xs.getLastD d) (ys.headD d) + totalBy c ys := by
  intro xs
  induction xs with
  | nil => intro ys h _; exact absurd rfl h
  | cons x t ih =>
    intro ys _ hy
    cases t with
    | nil =>
      cases ys with
      | nil => exact absurd rfl hy
      | cons y t2 =>
        show c x y + totalBy c (y :: t2) = 0 + c x y + totalBy c (y :: t2)
        ring
    | cons x2 t2 =>
      have hne : (x2 :: t2) ++ ys ≠ [] := by simp
      show c x x2 + totalBy c ((x2 :: t2) ++ ys) = _
      rw [ih ys (by simp) hy]
      have hlast : (x :: x2 :: t2).getLastD d = (x2 :: t2).getLastD d := rfl
      rw [← hlast]
      show _ = c x x2 + totalBy c (x2 :: t2) +
        c ((x :: x2 :: t2).getLastD d) (ys.headD d) + totalBy c ys
      ring

theorem totalBy_reverse (c : α → α → ℚ) (d : α) (hsym : ∀ a b, c a b = c b a) :
    ∀ (l : List α), totalBy c l.reverse = totalBy c l := by
  intro l
  induction l with
  | nil => rfl
  | cons x t ih =>
    cases ht : t with
    | nil => rfl
    | cons y t2 =>
      rw [← ht]
      have htne : t ≠ [] := by rw [ht]; simp
      have hrne : t.reverse ≠ [] := by
        simpa using htne
      rw [List.reverse_cons, totalBy_append c d t.reverse [x] hrne (by simp)]
      rw [totalBy_cons_headD c d x t htne]
      have hl : t.reverse.getLastD d = t.headD d := by
        rw [List.getLastD_eq_getLast?, List.getLast?_reverse, List.headD_eq_head?]
      rw [hl, ih]
      show totalBy c t + c (t.headD d) x + 0 = c x (t.headD d) + totalBy c t
      rw [hsym (t.headD d) x]
      ring

theorem headD_append_left (d : α) (xs ys : List α) (h : xs ≠ []) :
    (xs ++ ys).headD d = xs.headD d := by
  cases xs with
  | nil => exact absurd rfl h
  | cons a t => rfl

/-- The 2-opt move changes the total by exactly the endpoint-edge delta the
source computes, provided the edge cost is symmetric (the reversed interior
edges keep their cost). -/
theorem totalBy_twoOptSwapAt (c : α → α → ℚ) (d : α) (hsym : ∀ a b, c a b = c b a)
    (r : List α) (i j : Nat) (h1 : 1 ≤ i) (hij : i < j) (hj : j + 1 < r.length) :
    totalBy c (twoOptSwapAt r i j) + (c (r.getD (i - 1) d) (r.getD i d) + c (r.getD j d) (r.getD (j + 1) d)) =
      totalBy c r + (c (r.getD (i - 1) d) (r.getD j d) + c (r.getD i d) (r.getD (j + 1) d)) := by
  have hilen : i < r.length := by omega
  have hjlen : j < r.length := by omega
  set A := r.take i with hA
  set M := (r.drop i).take (j + 1 - i) with hM
  set B := r.drop (j + 1) with hB
  have hAne : A ≠ [] := by
    have : A.length = i := by
      rw [hA, List.length_take]
      omega
    intro h0
    rw [h0] at this
    simp at this
    omega
  have hMlen : M.length = j + 1 - i := by
    rw [hM, List.length_take, List.length_drop]
    omega
  have hMne : M ≠ [] := by
    intro h0
    rw [h0] at hMlen
    simp at hMlen
    omega
  have hBne : B ≠ [] := by
    have : B.length = r.length - (j + 1) := by rw [hB, List.length_drop]
    intro h0
    rw [h0] at this
    simp at this
    omega
  have hMBr : M ++ B = r.drop i := by
    rw [hM, hB]
    conv_rhs => rw [← List.take_append_drop (j + 1 - i) (r.drop i)]
    rw [List.drop_drop]
    congr 2
    omega
  have hr : r = A ++ (M ++ B) := by
    rw [hMBr, hA, List.take_append_drop]
  have hswap : twoOptSwapAt r i j = A ++ (M.reverse ++ B) := by
    unfold twoOptSwapAt
    rw [List.append_assoc]
  -- endpoint identities
  have hAl : A.length = i := by
    rw [hA, List.length_take]
    omega
  have hAlast : A.getLastD d = r.getD (i - 1) d := by
    rw [List.getLastD_eq_getLast?, List.getLast?_eq_getElem?, hAl, hA,
      List.getElem?_take, if_pos (by omega : i - 1 < i), List.getD_eq_getElem?_getD]
  have hMhead : M.headD d = r.getD i d := by
    rw [List.headD_eq_head?, List.head?_eq_getElem?, hM,
      List.getElem?_take, if_pos (by omega : 0 < j + 1 - i), List.getElem?_drop,
      List.getD_eq_getElem?_getD]
    simp
  have hMlast : M.getLastD d = r.getD j d := by
    rw [List.getLastD_eq_getLast?, List.getLast?_eq_getElem?, hMlen, hM,
      List.getElem?_take, if_pos (by omega : j + 1 - i - 1 < j + 1 - i),
      List.getElem?_drop, List.getD_eq_getElem?_getD]
    congr 2
    omega
  have hBhead : B.headD d = r.getD (j + 1) d := by
    rw [List.headD_eq_head?, hB, List.head?_drop, List.getD_eq_getElem?_getD]
  have hMrne : M.reverse ≠ [] := by simpa using hMne
  have hMrhead : M.reverse.headD d = r.getD j d := by
    rw [List.headD_eq_head?, List.head?_reverse, ← List.getLastD_eq_getLast?, hMlast]
  have hMrlast : M.reverse.getLastD d = r.getD i d := by
    rw [List.getLastD_eq_getLast?, List.getLast?_reverse, ← List.headD_eq_head?, hMhead]
  -- decompose both totals
  have hMBne : M ++ B ≠ [] := by simp [hMne]
  have hMrBne : M.reverse ++ B ≠ [] := by simp [hMrne]
  have hTr : totalBy c r =
      totalBy c A + c (r.getD (i - 1) d) (r.getD i d) +
        (totalBy c M + c (r.getD j d) (r.getD (j + 1) d) + totalBy c B) := by
    conv_lhs => rw [hr]
    rw [totalBy_append c d A (M ++ B) hAne hMBne,
      headD_append_left d M B hMne,
      totalBy_append c d M B hMne hBne,
      hAlast, hMhead, hMlast, hBhead]
  have hTs : totalBy c (twoOptSwapAt r i j) =
      totalBy c A + c (r.getD (i - 1) d) (r.getD j d) +
        (totalBy c M + c (r.getD i d) (r.getD (j + 1) d) + totalBy c B) := by
    rw [hswap,
      totalBy_append c d A (M.reverse ++ B) hAne hMrBne,
      headD_append_left d M.reverse B hMrne,
      totalBy_append c d M.reverse B hMrne hBne,
      totalBy_reverse c d hsym,
      hAlast, hMrhead, hMrlast, hBhead]
  rw [hTr, hTs]
  ring

/-- One 2-opt pass never increases the total under a symmetric edge cost. -/
theorem twoOptPass_total_le (dist : Dist) (orig : List GroupedAddress) (m : DMatrix)
    (hsym : ∀ a b, getMatrixDistance dist orig m a b = getMatrixDistance dist orig m b a)
    (r : List GroupedAddress) :
    calculateTotalDistance dist orig m (twoOptPass dist orig m r).1 ≤
      calculateTotalDistance dist orig m r := by
  unfold twoOptPass calculateTotalDistance
  have main : ∀ (ps : List (Nat × Nat)) (acc : List GroupedAddress × Bool),
      (∀ p ∈ ps, 1 ≤ p.1 ∧ p.1 < p.2 ∧ p.2 + 1 < r.length) →
      acc.1.length = r.length →
      totalBy (getMatrixDistance dist orig m) acc.1 ≤
        totalBy (getMatrixDistance dist orig m) r →
      totalBy (getMatrixDistance dist orig m)
        (ps.foldl
          (fun (acc : List GroupedAddress × Bool) ij =>
            let cur := acc.1
            let currentDist :=
              getMatrixDistance dist orig m (cur.getD (ij.1 - 1) dummyAddress) (cur.getD ij.1 dummyAddress) +
              getMatrixDistance dist orig m (cur.getD ij.2 dummyAddress) (cur.getD (ij.2 + 1) dummyAddress)
            let newDist :=
              getMatrixDistance dist orig m (cur.getD (ij.1 - 1) dummyAddress) (cur.getD ij.2 dummyAddress) +
              getMatrixDistance dist orig m (cur.getD ij.1 dummyAddress) (cur.getD (ij.2 + 1) dummyAddress)
            if newDist < currentDist then (twoOptSwapAt cur ij.1 ij.2, true) else (cur, acc.2))
          acc).1 ≤ totalBy (getMatrixDistance dist orig m) r := by
    intro ps
    induction ps with
    | nil => intro acc _ _ h; exact h
    | cons p t ih =>
      intro acc hps hlen hle
      rw [List.foldl_cons]
      have hp := hps p (List.mem_cons_self _ _)
      refine ih _ (fun q hq => hps q (List.mem_cons_of_mem _ hq)) ?_ ?_
      · dsimp only
        split
        · exact ((twoOptSwapAt_perm acc.1 p.1 p.2 (by omega)).length_eq).trans hlen
        · exact hlen
      · dsimp only
        split
        next hcond =>
          have hdelta := totalBy_twoOptSwapAt (getMatrixDistance dist orig m) dummyAddress
            hsym acc.1 p.1 p.2 hp.1 hp.2.1 (by omega)
          have : totalBy (getMatrixDistance dist orig m) (twoOptSwapAt acc.1 p.1 p.2) <
              totalBy (getMatrixDistance dist orig m) acc.1 := by linarith
          exact le_of_lt (lt_of_lt_of_le this hle)
        next => exact hle
  exact main _ (r, false) (fun p hp => pairList_bounds hp) rfl (le_refl _)

theorem apply2OptImprovementGo_total_le (dist : Dist) (orig : List GroupedAddress)
    (m : DMatrix)
    (hsym : ∀ a b, getMatrixDistance dist orig m a b = getMatrixDistance dist orig m b a) :
    ∀ (fuel : Nat) (r : List GroupedAddress),
      calculateTotalDistance dist orig m (apply2OptImprovementGo dist orig m fuel r) ≤
        calculateTotalDistance dist orig m r := by
  intro fuel
  induction fuel with
  | zero => intro r; exact le_refl _
  | succ f ih =>
    intro r
    show calculateTotalDistance dist orig m
      (if (twoOptPass dist orig m r).2 = true then
        apply2OptImprovementGo dist orig m f (twoOptPass dist orig m r).1
      else (twoOptPass dist orig m r).1) ≤ _
    split
    · exact le_trans (ih _) (twoOptPass_total_le dist orig m hsym r)
    · exact twoOptPass_total_le dist orig m hsym r

theorem apply2OptImprovement_total_le (dist : Dist) (orig : List GroupedAddress)
    (m : DMatrix)
    (hsym : ∀ a b, getMatrixDistance dist orig m a b = getMatrixDistance dist orig m b a)
    (route : List GroupedAddress) :
    calculateTotalDistance dist orig m (apply2OptImprovement dist orig m route) ≤
      calculateTotalDistance dist orig m route := by
  unfold apply2OptImprovement
  split
  · exact le_refl _
  · exact apply2OptImprovementGo_total_le dist orig m hsym _ route

theorem applyOrOptImprovement_total_le (dist : Dist) (orig : List GroupedAddress)
    (m : DMatrix) (route : List GroupedAddress) :
    calculateTotalDistance dist orig m (applyOrOptImprovement dist orig m route) ≤
      calculateTotalDistance dist orig m route := by
  unfold applyOrOptImprovement
  split
  · exact le_refl _
  · exact applyOrOptImprovementGo_total_le dist orig m 10 route

/-! ## Normalization: character facts -/

theorem char_le_iff_toNat {a b : Char} : a ≤ b ↔ a.toNat ≤ b.toNat := by
  rw [Char.le_def, UInt32.le_def, BitVec.le_def]
  exact Iff.rfl

theorem toNat_ofNat_valid {n : Nat} (h : Nat.isValidChar n) : (Char.ofNat n).toNat = n := by
  unfold Char.ofNat
  rw [dif_pos h]
  unfold Char.ofNatAux
  simp [Char.toNat, UInt32.toNat, UInt32.ofNatCore, BitVec.ofNatLt]

theorem toNat_lowerChar_of_upper {c : Char} (h : 'A' ≤ c ∧ c ≤ 'Z') :
    (lowerChar c).toNat = c.toNat + 32 := by
  unfold lowerChar
  rw [if_pos h]
  have h90 : c.toNat ≤ 90 := char_le_iff_toNat.mp h.2
  exact toNat_ofNat_valid (Or.inl (by omega))

theorem lowerChar_not_upper (c : Char) : ¬('A' ≤ lowerChar c ∧ lowerChar c ≤ 'Z') := by
  by_cases h : 'A' ≤ c ∧ c ≤ 'Z'
  · intro hcontra
    have ht := toNat_lowerChar_of_upper h
    have h65 : (65 : Nat) ≤ c.toNat := char_le_iff_toNat.mp h.1
    have h90 : (lowerChar c).toNat ≤ 90 := char_le_iff_toNat.mp hcontra.2
    omega
  · unfold lowerChar
    rw [if_neg h]
    exact h

theorem lowerChar_idem (c : Char) : lowerChar (lowerChar c) = lowerChar c := by
  show (if 'A' ≤ lowerChar c ∧ lowerChar c ≤ 'Z' then Char.ofNat ((lowerChar c).toNat + 32)
    else lowerChar c) = lowerChar c
  exact if_neg (lowerChar_not_upper c)

/-- "Already lower-cased": every character is a fixed point of `lowerChar`. -/
def LoweredStr (l : List Char) : Prop := ∀ c ∈ l, lowerChar c = c

theorem loweredStr_toLowerCaseStr (l : List Char) : LoweredStr (toLowerCaseStr l) := by
  intro c hc
  obtain ⟨a, _, rfl⟩ := List.mem_map.mp hc
  exact lowerChar_idem a

theorem toLowerCaseStr_eq_self {l : List Char} (h : LoweredStr l) : toLowerCaseStr l = l := by
  unfold toLowerCaseStr
  induction l with
  | nil => rfl
  | cons c t ih =>
    rw [List.map_cons, h c (List.mem_cons_self _ _),
      ih (fun x hx => h x (List.mem_cons_of_mem _ hx))]

/-! ## Normalization: the replaces only delete characters (or insert spaces) -/

theorem matchLit_sublist : ∀ (p l r : List Char), matchLit p l = some r → r.Sublist l := by
  intro p
  induction p with
  | nil =>
    intro l r h
    cases h
    exact List.Sublist.refl _
  | cons x ps ih =>
    intro l r h
    cases l with
    | nil => exact absurd h (by simp [matchLit])
    | cons c cs =>
      unfold matchLit at h
      by_cases he : lowerChar c = x
      · rw [if_pos he] at h
        exact (ih cs r h).trans (List.sublist_cons_self c cs)
      · rw [if_neg he] at h
        exact absurd h (by simp)

theorem matchKeyword_sublist {l r : List Char} (h : matchKeyword l = some r) : r.Sublist l := by
  unfold matchKeyword at h
  cases h1 : matchLit kwApt l with
  | some r1 => rw [h1] at h; cases h; exact matchLit_sublist _ _ _ h1
  | none =>
    rw [h1] at h
    cases h2 : matchLit kwApartment l with
    | some r2 => rw [h2] at h; cases h; exact matchLit_sublist _ _ _ h2
    | none =>
      rw [h2] at h
      cases h3 : matchLit kwUnit l with
      | some r3 => rw [h3] at h; cases h; exact matchLit_sublist _ _ _ h3
      | none =>
        rw [h3] at h
        cases h4 : matchLit kwSuite l with
        | some r4 => rw [h4] at h; cases h; exact matchLit_sublist _ _ _ h4
        | none =>
          rw [h4] at h
          by_cases hc : l.head? = some '#'
          · rw [if_pos hc] at h
            cases h
            exact List.tail_sublist l
          · rw [if_neg hc] at h
            exact absurd h (by simp)

theorem dropSpaces_sublist (l : List Char) : (dropSpaces l).Sublist l :=
  (List.dropWhile_suffix _).sublist

theorem tryMatch1_sublist {l r : List Char} (h : tryMatch1 l = some r) : r.Sublist l := by
  have h2 : (match matchKeyword (dropSpaces (if l.head? = some ',' then l.tail else l)) with
      | none => none
      | some l2 =>
        match dropSpaces l2 with
        | c :: r2 => if isAlnumChar c = true then some (r2.dropWhile isAlnumChar) else none
        | [] => none) = some r := h
  clear h
  have hl0 : (if l.head? = some ',' then l.tail else l).Sublist l := by
    split
    · exact List.tail_sublist l
    · exact List.Sublist.refl _
  set l0 := if l.head? = some ',' then l.tail else l with hdef
  have hl1 : (dropSpaces l0).Sublist l := (dropSpaces_sublist l0).trans hl0
  cases hk : matchKeyword (dropSpaces l0) with
  | none => rw [hk] at h2; exact absurd h2 (by simp)
  | some l2 =>
    rw [hk] at h2
    have h3 : (match dropSpaces l2 with
        | c :: r2 => if isAlnumChar c = true then some (r2.dropWhile isAlnumChar) else none
        | [] => none) = some r := h2
    clear h2
    have hl2 : l2.Sublist l := (matchKeyword_sublist hk).trans hl1
    have hl3 : (dropSpaces l2).Sublist l := (dropSpaces_sublist l2).trans hl2
    cases hc : dropSpaces l2 with
    | nil => rw [hc] at h3; exact absurd h3 (by simp)
    | cons c cs =>
      rw [hc] at h3
      have h4 : (if isAlnumChar c = true then some (cs.dropWhile isAlnumChar) else none) =
          some r := h3
      by_cases ha : isAlnumChar c = true
      · rw [if_pos ha] at h4
        cases h4
        rw [hc] at hl3
        exact ((List.dropWhile_suffix _).sublist.trans (List.sublist_cons_self c cs)).trans hl3
      · rw [if_neg ha] at h4
        exact absurd h4 (by simp)

theorem replace1Go_sublist : ∀ (f : Nat) (l : List Char), (replace1Go f l).Sublist l := by
  intro f
  induction f with
  | zero =>
    intro l
    cases l with
    | nil => exact List.Sublist.refl _
    | cons c rest => exact List.Sublist.refl _
  | succ f2 ih =>
    intro l
    cases l with
    | nil => exact List.Sublist.refl _
    | cons c rest =>
      show (match tryMatch1 (c :: rest) with
        | some r => replace1Go f2 r
        | none => c :: replace1Go f2 rest).Sublist (c :: rest)
      cases ht : tryMatch1 (c :: rest) with
      | some r => exact (ih r).trans (tryMatch1_sublist ht)
      | none => exact (ih rest).cons₂ c

theorem replace2_sublist : ∀ (l : List Char), (replace2 l).Sublist l := by
  intro l
  induction l with
  | nil => exact List.Sublist.refl _
  | cons c rest ih =>
    show (if tryMatch2 (c :: rest) = true then [] else c :: replace2 rest).Sublist (c :: rest)
    split
    · exact List.nil_sublist _
    · exact ih.cons₂ c

theorem mem_collapseWsGo : ∀ (f : Nat) (l : List Char) (c : Char),
    c ∈ collapseWsGo f l → c = ' ' ∨ c ∈ l := by
  intro f
  induction f with
  | zero =>
    intro l c hc
    cases l with
    | nil => simp [collapseWsGo] at hc
    | cons c0 rest => exact Or.inr hc
  | succ f2 ih =>
    intro l c hc
    cases l with
    | nil => simp [collapseWsGo] at hc
    | cons c0 rest =>
      by_cases hsp : isSpaceChar c0 = true
      · have hc2 : c ∈ ' ' :: collapseWsGo f2 (dropSpaces rest) := by
          simpa [collapseWsGo, hsp] using hc
        rcases List.mem_cons.mp hc2 with rfl | hc3
        · exact Or.inl rfl
        · rcases ih _ c hc3 with h | h
          · exact Or.inl h
          · exact Or.inr (List.mem_cons_of_mem _ ((dropSpaces_sublist rest).mem h))
      · have hc2 : c ∈ c0 :: collapseWsGo f2 rest := by
          simpa [collapseWsGo, hsp] using hc
        rcases List.mem_cons.mp hc2 with rfl | hc3
        · exact Or.inr (List.mem_cons_self _ _)
        · rcases ih _ c hc3 with h | h
          · exact Or.inl h
          · exact Or.inr (List.mem_cons_of_mem _ h)

theorem mem_trimStr {l : List Char} {c : Char} (h : c ∈ trimStr l) : c ∈ l := by
  unfold trimStr at h
  rw [List.mem_reverse] at h
  have h2 := (List.dropWhile_suffix isSpaceChar).sublist.mem h
  rw [List.mem_reverse] at h2
  exact (List.dropWhile_suffix isSpaceChar).sublist.mem h2

theorem loweredStr_normalize (s : String) :
    LoweredStr (normalizeAddressForGrouping s).data := by
  intro c hc
  have hc1 : c ∈ trimStr (collapseWs (replace2 (replace1 (toLowerCaseStr s.data)))) := hc
  have hc2 := mem_trimStr hc1
  rcases mem_collapseWsGo _ _ c hc2 with rfl | hc3
  · rfl
  · have hc4 := (replace2_sublist _).mem hc3
    have hc5 := (replace1Go_sublist _ _).mem hc4
    exact loweredStr_toLowerCaseStr s.data c hc5

/-! ## Normalization: stage identities -/

theorem replace1Go_eq_self : ∀ (f : Nat) (l : List Char),
    hasKeywordMatch l = false → replace1Go f l = l := by
  intro f
  induction f with
  | zero =>
    intro l _
    cases l with
    | nil => rfl
    | cons c rest => rfl
  | succ f2 ih =>
    intro l hl
    cases l with
    | nil => rfl
    | cons c rest =>
      unfold hasKeywordMatch at hl
      rw [List.tails_cons, List.any_cons, Bool.or_eq_false_iff] at hl
      have ht : tryMatch1 (c :: rest) = none := by
        cases h0 : tryMatch1 (c :: rest) with
        | none => rfl
        | some r => rw [h0] at hl; simp at hl
      show (match tryMatch1 (c :: rest) with
        | some r => replace1Go f2 r
        | none => c :: replace1Go f2 rest) = c :: rest
      rw [ht, ih rest hl.2]

theorem match2Core_getLast {l : List Char} (h : match2Core l = true) :
    ∃ c, l.getLast? = some c ∧ (isAsciiLetter c || isSpaceChar c) = true := by
  unfold match2Core at h
  cases hd : dropSpaces l with
  | nil => rw [hd] at h; simp at h
  | cons c rest =>
    rw [hd] at h
    rw [Bool.and_eq_true] at h
    have hsplit : l.getLast? = (c :: rest).getLast? := by
      have hd2 : List.dropWhile isSpaceChar l = c :: rest := hd
      conv_lhs => rw [← List.takeWhile_append_dropWhile isSpaceChar l]
      rw [hd2]
      exact List.getLast?_append_of_ne_nil _ (by simp)
    cases rest with
    | nil =>
      refine ⟨c, by rw [hsplit]; rfl, ?_⟩
      rw [Bool.or_eq_true]
      exact Or.inl h.1
    | cons r0 rs =>
      have hne : r0 :: rs ≠ [] := by simp
      refine ⟨(r0 :: rs).getLast hne, ?_, ?_⟩
      · rw [hsplit, List.getLast?_cons_cons, List.getLast?_eq_getLast _ hne]
      · rw [Bool.or_eq_true]
        exact Or.inr (by
          have := h.2
          rw [List.all_eq_true] at this
          exact this _ (List.getLast_mem hne))

theorem tryMatch2_getLast {l : List Char} (h : tryMatch2 l = true) :
    ∃ c, l.getLast? = some c ∧ (isAsciiLetter c || isSpaceChar c) = true := by
  unfold tryMatch2 at h
  by_cases hc : l.head? = some ','
  · rw [if_pos hc] at h
    obtain ⟨c, hcl, hprop⟩ := match2Core_getLast h
    refine ⟨c, ?_, hprop⟩
    cases l with
    | nil => simp at hc
    | cons x rest =>
      cases rest with
      | nil =>
        simp only [List.tail_cons] at hcl
        exact absurd hcl (by simp)
      | cons y rs =>
        rw [List.getLast?_cons_cons]
        exact hcl
  · rw [if_neg hc] at h
    exact match2Core_getLast h

theorem replace2_eq_self : ∀ (l : List Char),
    (∀ c, l.getLast? = some c → (isAsciiLetter c || isSpaceChar c) = false) →
    replace2 l = l := by
  intro l
  induction l with
  | nil => intro _; rfl
  | cons c rest ih =>
    intro hl
    show (if tryMatch2 (c :: rest) = true then [] else c :: replace2 rest) = c :: rest
    have ht : tryMatch2 (c :: rest) = false := by
      cases h0 : tryMatch2 (c :: rest)
      · rfl
      · obtain ⟨c2, hc2, hprop⟩ := tryMatch2_getLast h0
        rw [hl c2 hc2] at hprop
        exact absurd hprop (by simp)
    rw [ht]
    simp only [Bool.false_eq_true, if_false]
    cases rest with
    | nil => rfl
    | cons r0 rs =>
      rw [ih]
      intro c2 hc2
      exact hl c2 (by rw [List.getLast?_cons_cons]; exact hc2)

/-! ## Normalization: whitespace structure of the collapse/trim stages -/

theorem dropSpaces_head (l : List Char) :
    ∀ c, (dropSpaces l).head? = some c → isSpaceChar c = false := by
  induction l with
  | nil => intro c hc; simp [dropSpaces] at hc
  | cons c0 rest ih =>
    intro c hc
    by_cases hs : isSpaceChar c0 = true
    · have : dropSpaces (c0 :: rest) = dropSpaces rest := by
        simp [dropSpaces, List.dropWhile_cons, hs]
      rw [this] at hc
      exact ih c hc
    · have : dropSpaces (c0 :: rest) = c0 :: rest := by
        simp only [dropSpaces, List.dropWhile_cons, hs, if_false, Bool.false_eq_true]
      rw [this] at hc
      cases hc
      exact Bool.eq_false_iff.mpr hs

theorem dropSpaces_eq_self (l : List Char)
    (h : ∀ c, l.head? = some c → isSpaceChar c = false) : dropSpaces l = l := by
  cases l with
  | nil => rfl
  | cons c rest =>
    simp only [dropSpaces, List.dropWhile_cons, h c rfl, if_false, Bool.false_eq_true]

theorem collapseWsGo_head_not_space :
    ∀ (f : Nat) (l : List Char), (∀ c, l.head? = some c → isSpaceChar c = false) →
      ∀ c, (collapseWsGo f l).head? = some c → isSpaceChar c = false := by
  intro f l hl c hc
  cases l with
  | nil =>
    have : collapseWsGo f ([] : List Char) = [] := by cases f <;> rfl
    rw [this] at hc
    simp at hc
  | cons c0 rest =>
    have h0 : isSpaceChar c0 = false := hl c0 rfl
    cases f with
    | zero =>
      have : collapseWsGo 0 (c0 :: rest) = c0 :: rest := rfl
      rw [this] at hc
      cases hc
      exact h0
    | succ f2 =>
      have : collapseWsGo (f2 + 1) (c0 :: rest) = c0 :: collapseWsGo f2 rest := by
        simp [collapseWsGo, h0]
      rw [this] at hc
      cases hc
      exact h0

/-- The relation "not two adjacent whitespace characters". -/
def NoAdjWs (a b : Char) : Prop := ¬(isSpaceChar a = true ∧ isSpaceChar b = true)

theorem collapse_out_space :
    ∀ (f : Nat) (l : List Char), l.length ≤ f →
      ∀ c ∈ collapseWsGo f l, isSpaceChar c = true → c = ' ' := by
  intro f
  induction f with
  | zero =>
    intro l hl c hc _
    rw [Nat.le_zero, List.length_eq_zero] at hl
    subst hl
    simp [collapseWsGo] at hc
  | succ f2 ih =>
    intro l hl c hc hsp
    cases l with
    | nil => simp [collapseWsGo] at hc
    | cons c0 rest =>
      by_cases hs : isSpaceChar c0 = true
      · have hc2 : c ∈ ' ' :: collapseWsGo f2 (dropSpaces rest) := by
          simpa [collapseWsGo, hs] using hc
        rcases List.mem_cons.mp hc2 with rfl | hc3
        · rfl
        · refine ih (dropSpaces rest) ?_ c hc3 hsp
          have hlen : (dropSpaces rest).length ≤ rest.length := by
            unfold dropSpaces
            exact (List.dropWhile_suffix isSpaceChar).sublist.length_le
          simp only [List.length_cons] at hl
          omega
      · have hc2 : c ∈ c0 :: collapseWsGo f2 rest := by
          simpa [collapseWsGo, hs] using hc
        rcases List.mem_cons.mp hc2 with rfl | hc3
        · exact absurd hsp (by simp [hs])
        · refine ih rest ?_ c hc3 hsp
          simp only [List.length_cons] at hl
          omega

theorem collapse_out_chain :
    ∀ (f : Nat) (l : List Char), l.length ≤ f →
      List.Chain' NoAdjWs (collapseWsGo f l) := by
  intro f
  induction f with
  | zero =>
    intro l hl
    rw [Nat.le_zero, List.length_eq_zero] at hl
    subst hl
    exact List.chain'_nil
  | succ f2 ih =>
    intro l hl
    cases l with
    | nil => exact List.chain'_nil
    | cons c0 rest =>
      simp only [List.length_cons] at hl
      by_cases hs : isSpaceChar c0 = true
      · have heq : collapseWsGo (f2 + 1) (c0 :: rest) =
            ' ' :: collapseWsGo f2 (dropSpaces rest) := by
          simp [collapseWsGo, hs]
        rw [heq, List.chain'_cons']
        constructor
        · intro y hy
          intro hcontra
          exact absurd hcontra.2 (by
            simp [collapseWsGo_head_not_space f2 (dropSpaces rest) (dropSpaces_head rest) y hy])
        · refine ih (dropSpaces rest) ?_
          have hlen : (dropSpaces rest).length ≤ rest.length := by
            unfold dropSpaces
            exact (List.dropWhile_suffix isSpaceChar).sublist.length_le
          omega
      · have heq : collapseWsGo (f2 + 1) (c0 :: rest) = c0 :: collapseWsGo f2 rest := by
          simp [collapseWsGo, hs]
        rw [heq, List.chain'_cons']
        constructor
        · intro y _ hcontra
          exact absurd hcontra.1 (by simp [hs])
        · exact ih rest (by omega)

theorem collapseWsGo_eq_self :
    ∀ (f : Nat) (l : List Char),
      (∀ c ∈ l, isSpaceChar c = true → c = ' ') →
      List.Chain' NoAdjWs l → collapseWsGo f l = l := by
  intro f
  induction f with
  | zero =>
    intro l _ _
    cases l with
    | nil => rfl
    | cons c rest => rfl
  | succ f2 ih =>
    intro l hsp hch
    cases l with
    | nil => rfl
    | cons c0 rest =>
      by_cases hs : isSpaceChar c0 = true
      · have hc0 : c0 = ' ' := hsp c0 (List.mem_cons_self _ _) hs
        have hdrop : dropSpaces rest = rest := by
          refine dropSpaces_eq_self rest ?_
          intro c hc
          have hna := (List.chain'_cons'.mp hch).1 c hc
          unfold NoAdjWs at hna
          cases hr : isSpaceChar c
          · rfl
          · exact absurd ⟨hs, hr⟩ hna
        have heq : collapseWsGo (f2 + 1) (c0 :: rest) =
            ' ' :: collapseWsGo f2 (dropSpaces rest) := by
          simp [collapseWsGo, hs]
        rw [heq, hdrop, ih rest (fun c hc h2 => hsp c (List.mem_cons_of_mem _ hc) h2)
          (List.chain'_cons'.mp hch).2, hc0]
      · have heq : collapseWsGo (f2 + 1) (c0 :: rest) = c0 :: collapseWsGo f2 rest := by
          simp [collapseWsGo, hs]
        rw [heq, ih rest (fun c hc h2 => hsp c (List.mem_cons_of_mem _ hc) h2)
          (List.chain'_cons'.mp hch).2]

/-! ## Normalization: trim structure -/

theorem getLast?_of_suffix {l w : List Char} (h : l <:+ w) (hne : l ≠ []) :
    l.getLast? = w.getLast? := by
  obtain ⟨p, rfl⟩ := h
  exact (List.getLast?_append_of_ne_nil p hne).symm

theorem trim_head_not_space (l : List Char) :
    ∀ c, (trimStr l).head? = some c → isSpaceChar c = false := by
  intro c hc
  unfold trimStr at hc
  set u := l.dropWhile isSpaceChar with hu
  set v := u.reverse.dropWhile isSpaceChar with hv
  rw [List.head?_reverse] at hc
  cases hvn : v with
  | nil => rw [hvn] at hc; simp at hc
  | cons v0 vs =>
    have hvsuf : v <:+ u.reverse := List.dropWhile_suffix isSpaceChar
    have : v.getLast? = u.reverse.getLast? := getLast?_of_suffix hvsuf (by rw [hvn]; simp)
    rw [this, List.getLast?_reverse] at hc
    exact dropSpaces_head l c hc

theorem trim_last_not_space (l : List Char) :
    ∀ c, (trimStr l).getLast? = some c → isSpaceChar c = false := by
  intro c hc
  unfold trimStr at hc
  rw [List.getLast?_reverse] at hc
  exact dropSpaces_head _ c hc

theorem trimStr_eq_self (l : List Char)
    (h1 : ∀ c, l.head? = some c → isSpaceChar c = false)
    (h2 : ∀ c, l.getLast? = some c → isSpaceChar c = false) : trimStr l = l := by
  unfold trimStr
  have hd1 : l.dropWhile isSpaceChar = l := dropSpaces_eq_self l h1
  rw [hd1]
  have hd2 : l.reverse.dropWhile isSpaceChar = l.reverse := by
    refine dropSpaces_eq_self l.reverse ?_
    intro c hc
    rw [List.head?_reverse] at hc
    exact h2 c hc
  rw [hd2, List.reverse_reverse]

theorem chain'_trimStr {l : List Char} (h : List.Chain' NoAdjWs l) :
    List.Chain' NoAdjWs (trimStr l) := by
  unfold trimStr
  have hsymm : ∀ a b, NoAdjWs a b → NoAdjWs b a := by
    intro a b hab hcon
    exact hab ⟨hcon.2, hcon.1⟩
  have h1 : List.Chain' NoAdjWs (l.dropWhile isSpaceChar) :=
    h.suffix (List.dropWhile_suffix _)
  have h2 : List.Chain' NoAdjWs (l.dropWhile isSpaceChar).reverse := by
    rw [List.chain'_reverse]
    exact h1.imp (fun a b hab => hsymm a b hab)
  have h3 : List.Chain' NoAdjWs ((l.dropWhile isSpaceChar).reverse.dropWhile isSpaceChar) :=
    h2.suffix (List.dropWhile_suffix _)
  rw [List.chain'_reverse]
  exact h3.imp (fun a b hab => hsymm a b hab)

/-! ## Normalization: idempotence on already-normalized strings -/

theorem normalize_eq_self_of_fixedpoints (t : List Char)
    (hlow : LoweredStr t)
    (hkw : hasKeywordMatch t = false)
    (hlast : ∀ c, t.getLast? = some c → (isAsciiLetter c || isSpaceChar c) = false)
    (hsp : ∀ c ∈ t, isSpaceChar c = true → c = ' ')
    (hch : List.Chain' NoAdjWs t)
    (hhead : ∀ c, t.head? = some c → isSpaceChar c = false)
    (hlast2 : ∀ c, t.getLast? = some c → isSpaceChar c = false) :
    normalizeAddressForGrouping (String.mk t) = String.mk t := by
  show String.mk (trimStr (collapseWs (replace2 (replace1 (toLowerCaseStr t))))) = String.mk t
  rw [toLowerCaseStr_eq_self hlow,
    show replace1 t = t from replace1Go_eq_self t.length t hkw,
    replace2_eq_self t hlast,
    show collapseWs t = t from collapseWsGo_eq_self t.length t hsp hch,
    trimStr_eq_self t hhead hlast2]

theorem normalize_idem_of (s : String)
    (hkw : hasKeywordMatch (normalizeAddressForGrouping s).data = false)
    (hend : endsInAsciiLetter (normalizeAddressForGrouping s).data = false) :
    normalizeAddressForGrouping (normalizeAddressForGrouping s) =
      normalizeAddressForGrouping s := by
  have hu : normalizeAddressForGrouping s =
      String.mk (trimStr (collapseWs (replace2 (replace1 (toLowerCaseStr s.data))))) := rfl
  set u0 : List Char := replace2 (replace1 (toLowerCaseStr s.data)) with hu0
  set u : List Char := collapseWs u0 with huu
  set t : List Char := trimStr u with ht
  have hdata : (normalizeAddressForGrouping s).data = t := by rw [hu]
  rw [hu]
  refine normalize_eq_self_of_fixedpoints t ?_ ?_ ?_ ?_ ?_ ?_ ?_
  · intro c hc
    exact loweredStr_normalize s c (by rw [hdata]; exact hc)
  · rw [← hdata]; exact hkw
  · intro c hc
    have h1 : isAsciiLetter c = false := by
      unfold endsInAsciiLetter at hend
      rw [hdata, hc] at hend
      exact hend
    have h2 : isSpaceChar c = false := trim_last_not_space u c hc
    rw [h1, h2]
    rfl
  · intro c hc hsp2
    have hcu : c ∈ u := mem_trimStr hc
    exact collapse_out_space u0.length u0 (Nat.le_refl _) c hcu hsp2
  · exact chain'_trimStr (collapse_out_chain u0.length u0 (Nat.le_refl _))
  · exact trim_head_not_space u
  · exact trim_last_not_space u

/-! ## The cluster tier on a concrete 101-stop instance (C1) -/

theorem clusterCenterOf_perm {cl cl' : List GroupedAddress} (h : List.Perm cl cl') :
    clusterCenterOf cl = clusterCenterOf cl' := by
  unfold clusterCenterOf
  rw [h.length_eq,
    foldl_add_eq_sum (fun a => a.core.latitude) cl 0,
    foldl_add_eq_sum (fun a => a.core.latitude) cl' 0,
    foldl_add_eq_sum (fun a => a.core.longitude) cl 0,
    foldl_add_eq_sum (fun a => a.core.longitude) cl' 0,
    (h.map _).sum_eq, (h.map _).sum_eq]

theorem optimizeClusterOrder_eval (oC : List GroupedAddress) (m : DMatrix)
    (a : List GroupedAddress)
    (hC : clusterCenterOf oC = clusterCenterOf exClC) :
    optimizeClusterOrder sqDist [exClA, exClB, oC, exClD] m a none =
      [exClA, exClA, oC, exClD] := by
  unfold optimizeClusterOrder
  rw [if_neg (by simp)]
  simp only [List.map_cons, List.map_nil]
  rw [hC]
  rfl

theorem clusterBasedOptimization_ex101 :
    ∃ oC, List.Perm oC exClC ∧
      clusterBasedOptimization sqDist ex101G ex101M ex101G none =
        [exClA, exClA, oC, exClD].flatten := by
  refine ⟨nearestNeighborWithMatrix sqDist ex101G
      (extractSubMatrix ex101M (List.map (fun a => indexOfAddr ex101G a) exClC)) exClC none,
    nearestNeighborWithMatrix_perm _ _ _ _ _, ?_⟩
  have hC : clusterCenterOf (nearestNeighborWithMatrix sqDist ex101G
      (extractSubMatrix ex101M (List.map (fun a => indexOfAddr ex101G a) exClC)) exClC none) =
      clusterCenterOf exClC :=
    clusterCenterOf_perm (nearestNeighborWithMatrix_perm _ _ _ _ _)
  have hcl : createSmartClusters sqDist ex101G ((ex101G.length + 29) / 30) =
      [exClA, exClB, exClC, exClD] := by decide
  show (optimizeClusterOrder sqDist
      (List.map (fun cl => nearestNeighborWithMatrix sqDist ex101G
          (extractSubMatrix ex101M (List.map (fun a => indexOfAddr ex101G a) cl)) cl none)
        (createSmartClusters sqDist ex101G ((ex101G.length + 29) / 30)))
      ex101M ex101G none).flatten = _
  rw [hcl]
  simp only [List.map_cons, List.map_nil]
  show (optimizeClusterOrder sqDist
      [exClA, exClB,
       nearestNeighborWithMatrix sqDist ex101G
         (extractSubMatrix ex101M (List.map (fun a => indexOfAddr ex101G a) exClC)) exClC none,
       exClD] ex101M ex101G none).flatten = _
  rw [optimizeClusterOrder_eval _ _ _ hC]

theorem optimizeRoute_cluster_tier (dist : Dist) (prov : Provider) (hk : Bool)
    (addrs : List Address) (s : Option (ℚ × ℚ))
    (h2 : ¬ addrs.length ≤ 2)
    (h25 : ¬ (groupSameLocationAddresses addrs).length ≤ 25)
    (h100 : ¬ (groupSameLocationAddresses addrs).length ≤ 100) :
    optimizeRoute dist prov hk addrs s =
      expandGroupedRoute (applyLocalSearchImprovements dist (groupSameLocationAddresses addrs)
        (buildDistanceMatrix dist prov hk (groupSameLocationAddresses addrs))
        (clusterBasedOptimization dist (groupSameLocationAddresses addrs)
          (buildDistanceMatrix dist prov hk (groupSameLocationAddresses addrs))
          (groupSameLocationAddresses addrs) s)) := by
  simp only [optimizeRoute, if_neg h2, if_neg h25, if_neg h100]

theorem expandGroupedRoute_eq_map_core {r : List GroupedAddress}
    (h : ∀ g ∈ r, g.members = []) :
    expandGroupedRoute r = r.map GroupedAddress.core := by
  induction r with
  | nil => rfl
  | cons g t ih =>
    show (match g.members with | [] => [g.core] | ms => ms) ++ expandGroupedRoute t = _
    rw [h g (List.mem_cons_self _ _)]
    rw [ih fun x hx => h x (List.mem_cons_of_mem _ hx)]
    rfl

theorem optimizeRoute_ex101 :
    ∃ oC R, List.Perm oC exClC ∧
      List.Perm R ([exClA, exClA, oC, exClD].flatten) ∧
      optimizeRoute sqDist noProvider false ex101 none = expandGroupedRoute R := by
  obtain ⟨oC, hpC, heq⟩ := clusterBasedOptimization_ex101
  have hg : groupSameLocationAddresses ex101 = ex101G := by decide
  refine ⟨oC, applyLocalSearchImprovements sqDist ex101G ex101M
    (clusterBasedOptimization sqDist ex101G ex101M ex101G none), hpC, ?_, ?_⟩
  · exact heq ▸ applyLocalSearchImprovements_perm sqDist ex101G ex101M _
  · rw [optimizeRoute_cluster_tier sqDist noProvider false ex101 none
      (by decide) (by rw [hg]; decide) (by rw [hg]; decide), hg]
    rfl

/-! ## Matrix shape and diagonal (C3, C4) -/

theorem mapRange_getQ (n : Nat) (f : Nat → Nat → ℚ) (i j : Nat) (hi : i < n) (hj : j < n) :
    getQ ((List.range n).map fun r => (List.range n).map fun c => f r c) i j = some (f i j) := by
  unfold getQ
  simp [List.getElem?_map, List.getElem?_range, hi, hj]

theorem mapRange_shape (n : Nat) (f : Nat → Nat → ℚ) :
    ((List.range n).map fun r => (List.range n).map fun c => f r c).length = n ∧
    ∀ row ∈ (List.range n).map fun r => (List.range n).map fun c => f r c, row.length = n := by
  constructor
  · simp
  · intro row hrow
    simp only [List.mem_map] at hrow
    obtain ⟨r, _, rfl⟩ := hrow
    simp

theorem buildHaversineMatrix_shape (dist : Dist) (addrs : List GroupedAddress) :
    (buildHaversineMatrix dist addrs).length = addrs.length ∧
    (∀ row ∈ buildHaversineMatrix dist addrs, row.length = addrs.length) ∧
    (∀ i, i < addrs.length → getQ (buildHaversineMatrix dist addrs) i i = some 0) := by
  have h := mapRange_shape addrs.length (fun r c =>
    if r = c then 0 else
      match addrs[r]?, addrs[c]? with
      | some a, some b => distG dist a b
      | _, _ => 0)
  refine ⟨h.1, h.2, ?_⟩
  intro i hi
  have h2 := mapRange_getQ addrs.length (fun r c =>
    if r = c then 0 else
      match addrs[r]?, addrs[c]? with
      | some a, some b => distG dist a b
      | _, _ => 0) i i hi hi
  simpa using h2

theorem providerMatrix_shape (dist : Dist) (prov : Provider) (addrs : List GroupedAddress)
    (hdist : ∀ la ln, dist la ln la ln = 0)
    (hdiag : ∀ i, cellAt prov i i = CellResult.ok 0 ∨ cellAt prov i i = CellResult.notOk) :
    ((List.range addrs.length).map fun r => (List.range addrs.length).map fun c =>
        match cellAt prov r c with
        | CellResult.ok v => v / 1000
        | CellResult.notOk =>
          match addrs[r]?, addrs[c]? with
          | some a, some b => distG dist a b
          | _, _ => 0).length = addrs.length ∧
    (∀ row ∈ (List.range addrs.length).map fun r => (List.range addrs.length).map fun c =>
        match cellAt prov r c with
        | CellResult.ok v => v / 1000
        | CellResult.notOk =>
          match addrs[r]?, addrs[c]? with
          | some a, some b => distG dist a b
          | _, _ => 0, row.length = addrs.length) ∧
    (∀ i, i < addrs.length →
      getQ ((List.range addrs.length).map fun r => (List.range addrs.length).map fun c =>
        match cellAt prov r c with
        | CellResult.ok v => v / 1000
        | CellResult.notOk =>
          match addrs[r]?, addrs[c]? with
          | some a, some b => distG dist a b
          | _, _ => 0) i i = some 0) := by
  have h := mapRange_shape addrs.length (fun r c =>
    match cellAt prov r c with
    | CellResult.ok v => v / 1000
    | CellResult.notOk =>
      match addrs[r]?, addrs[c]? with
      | some a, some b => distG dist a b
      | _, _ => 0)
  refine ⟨h.1, h.2, ?_⟩
  intro i hi
  have h2 := mapRange_getQ addrs.length (fun r c =>
    match cellAt prov r c with
    | CellResult.ok v => v / 1000
    | CellResult.notOk =>
      match addrs[r]?, addrs[c]? with
      | some a, some b => distG dist a b
      | _, _ => 0) i i hi hi
  simp only [] at h2
  rcases hdiag i with hc | hc
  · rw [hc] at h2
    simpa using h2
  · rw [hc, List.getElem?_eq_getElem hi] at h2
    simpa [distG, hdist] using h2

/-- `hasApiKey = false` short-circuits to the geometric matrix. -/
theorem buildDistanceMatrix_no_key (dist : Dist) (prov : Provider)
    (addrs : List GroupedAddress) :
    buildDistanceMatrix dist prov false addrs = buildHaversineMatrix dist addrs := rfl

/-- Every cell of `zeroProvider` reads as `ok 0`. -/
theorem cellAt_zeroProvider (r c : Nat) : cellAt zeroProvider r c = CellResult.ok 0 := by
  show ((List.replicate 10 (List.replicate 10 (CellResult.ok 0))).getD (r % 10) []).getD
      (c % 10) CellResult.notOk = CellResult.ok 0
  have hrow : (List.replicate 10 (List.replicate 10 (CellResult.ok 0))).getD (r % 10) [] =
      List.replicate 10 (CellResult.ok 0) := by
    rw [List.getD_eq_getElem?_getD, List.getElem?_replicate,
      if_pos (Nat.mod_lt _ (by norm_num)), Option.getD_some]
  rw [hrow, List.getD_eq_getElem?_getD, List.getElem?_replicate,
    if_pos (Nat.mod_lt _ (by norm_num)), Option.getD_some]

/-- The squared-euclidean comparison distance vanishes on the diagonal. -/
theorem sqDist_self (la ln : ℚ) : sqDist la ln la ln = 0 := by
  unfold sqDist
  ring

/-! ## Claim theorems -/

/-- C3: the matrix invariant as amended.  Every matrix the builder produces
is a fully-populated `n x n` table, and its diagonal is zero provided the
underlying distance function vanishes on the diagonal and the provider never
answers a diagonal cell with a nonzero `OK` value.  (The unqualified claim
is false: a provider cell `ok v` with `v` nonzero is copied onto the
diagonal unchanged — see the counterexample.) -/
theorem c3_matrix_populated_diag_zero (dist : Dist) (prov : Provider) (hk : Bool)
    (addrs : List GroupedAddress)
    (hdist : ∀ la ln, dist la ln la ln = 0)
    (hdiag : ∀ i, cellAt prov i i = CellResult.ok 0 ∨ cellAt prov i i = CellResult.notOk) :
    (buildDistanceMatrix dist prov hk addrs).length = addrs.length ∧
    (∀ row ∈ buildDistanceMatrix dist prov hk addrs, row.length = addrs.length) ∧
    (∀ i, i < addrs.length → getQ (buildDistanceMatrix dist prov hk addrs) i i = some 0) := by
  unfold buildDistanceMatrix
  by_cases hk2 : hk = true
  · rw [if_pos hk2]
    by_cases hrf : requestFailed prov addrs.length = true
    · rw [if_pos hrf]
      exact buildHaversineMatrix_shape dist addrs
    · rw [if_neg hrf]
      exact providerMatrix_shape dist prov addrs hdist hdiag
  · rw [if_neg hk2]
    exact buildHaversineMatrix_shape dist addrs

/-- C3 counterexample: a contract-conforming provider answer with a nonzero
self-distance (5000 m) lands on the diagonal as 5 km, not 0. -/
theorem c3_counterexample_nonzero_diagonal :
    getQ (buildDistanceMatrix sqDist selfLoopProvider true [exG0]) 0 0 = some 5 := by
  decide

/-- C3 witness: the amended invariant at a concrete provider-backed build. -/
theorem c3_matrix_populated_diag_zero_witness :
    (buildDistanceMatrix sqDist zeroProvider true [exG0]).length = [exG0].length ∧
    (∀ row ∈ buildDistanceMatrix sqDist zeroProvider true [exG0],
      row.length = [exG0].length) ∧
    (∀ i, i < [exG0].length →
      getQ (buildDistanceMatrix sqDist zeroProvider true [exG0]) i i = some 0) :=
  c3_matrix_populated_diag_zero sqDist zeroProvider true [exG0]
    (fun la ln => sqDist_self la ln)
    (fun i => Or.inl (cellAt_zeroProvider i i))

/-- C4: if any batch request failed, the builder discards the provider path
and the whole matrix is the geometric one; the builder is total, so no
failure escapes to the caller. -/
theorem c4_request_failure_geometric_rebuild (dist : Dist) (prov : Provider)
    (addrs : List GroupedAddress)
    (h : requestFailed prov addrs.length = true) :
    buildDistanceMatrix dist prov true addrs = buildHaversineMatrix dist addrs := by
  unfold buildDistanceMatrix
  rw [if_pos rfl, if_pos h]

/-- C4 witness: with a provider whose every request fails, the provider-keyed
build equals the geometric build on a concrete stop list. -/
theorem c4_request_failure_geometric_rebuild_witness :
    buildDistanceMatrix sqDist noProvider true [exG0, exG1] =
      buildHaversineMatrix sqDist [exG0, exG1] :=
  c4_request_failure_geometric_rebuild sqDist noProvider [exG0, exG1] (by decide)

/-- C5: the greedy loop of `NearestNeighborWithMatrix` picks, at every step,
the unvisited group of minimum lookup distance from the tour end, breaking
ties in favour of the earliest input position — stated as equality with the
declarative earliest-minimum recursion `specNearestNeighborWithMatrix`.
(The start rule of the claim is false — see the counterexample: the start is
the first group inside a `0.001`-degree box around the start coordinate, not
the nearest group.) -/
theorem c5_greedy_step_earliest_minimum :
    ∀ (dist : Dist) (orig : List GroupedAddress) (m : DMatrix)
      (addrs : List GroupedAddress) (s : Option (ℚ × ℚ)),
      nearestNeighborWithMatrix dist orig m addrs s =
        specNearestNeighborWithMatrix dist orig m addrs s := by
  intro dist orig m addrs s
  cases addrs with
  | nil => rfl
  | cons a0 rest =>
    cases rest with
    | nil => rfl
    | cons a1 rest2 =>
      cases s with
      | none =>
        show a0 :: nearestNeighborWithMatrixGo dist orig m (a0 :: a1 :: rest2).length a0
            ((a0 :: a1 :: rest2).erase a0) = _
        rw [nearestNeighborWithMatrixGo_eq_spec]
        rfl
      | some st =>
        show toleranceStart (a0 :: a1 :: rest2) a0 st ::
            nearestNeighborWithMatrixGo dist orig m (a0 :: a1 :: rest2).length
              (toleranceStart (a0 :: a1 :: rest2) a0 st)
              ((a0 :: a1 :: rest2).erase (toleranceStart (a0 :: a1 :: rest2) a0 st)) = _
        rw [nearestNeighborWithMatrixGo_eq_spec]
        rfl

/-- C5 counterexample: with start `(0,0)`, the route starts at `exG0`
(latitude `9/10000`, the first group inside the `0.001` box) even though
`exG1` (latitude `1/10000`) is strictly nearer to the start. -/
theorem c5_counterexample_start_not_nearest :
    (nearestNeighborWithMatrix sqDist exNN (buildHaversineMatrix sqDist exNN) exNN
        (some (0, 0))).head? = some exG0 ∧
    sqDist 0 0 exG1.core.latitude exG1.core.longitude <
      sqDist 0 0 exG0.core.latitude exG0.core.longitude := by
  decide

/-- C10: without an API key, `optimizeRoute` is a pure function of the stop
list and start coordinate — in particular the provider oracle is never
consulted, so two runs on equal inputs give equal orderings whatever either
run's provider would have answered. -/
theorem c10_no_key_deterministic :
    ∀ (dist : Dist) (p1 p2 : Provider) (addrs : List Address) (s : Option (ℚ × ℚ)),
      optimizeRoute dist p1 false addrs s = optimizeRoute dist p2 false addrs s := by
  intro dist p1 p2 addrs s
  simp only [optimizeRoute, buildDistanceMatrix_no_key]

/-- C2: the tier dispatch as amended.  The trivial short-circuit tests the
INPUT stop count (`addresses.length <= 2`), not the number of location
groups; the remaining tiers dispatch on the grouped count (<= 25 advanced,
26..100 hybrid, > 100 cluster), each followed by the local-search passes and
expansion.  (The claim's "whenever the stops collapse to 2 or fewer groups
the input order is preserved" is false — see the counterexample.) -/
theorem c2_tier_dispatch :
    (∀ (dist : Dist) (prov : Provider) (hk : Bool) (addrs : List Address)
        (s : Option (ℚ × ℚ)), addrs.length ≤ 2 →
        optimizeRoute dist prov hk addrs s = addrs) ∧
    (∀ (dist : Dist) (prov : Provider) (hk : Bool) (addrs : List Address)
        (s : Option (ℚ × ℚ)), ¬ addrs.length ≤ 2 →
        (groupSameLocationAddresses addrs).length ≤ 25 →
        optimizeRoute dist prov hk addrs s =
          expandGroupedRoute (applyLocalSearchImprovements dist
            (groupSameLocationAddresses addrs)
            (buildDistanceMatrix dist prov hk (groupSameLocationAddresses addrs))
            (advancedTSPOptimization dist (groupSameLocationAddresses addrs)
              (buildDistanceMatrix dist prov hk (groupSameLocationAddresses addrs))
              (groupSameLocationAddresses addrs) s))) ∧
    (∀ (dist : Dist) (prov : Provider) (hk : Bool) (addrs : List Address)
        (s : Option (ℚ × ℚ)), ¬ addrs.length ≤ 2 →
        ¬ (groupSameLocationAddresses addrs).length ≤ 25 →
        (groupSameLocationAddresses addrs).length ≤ 100 →
        optimizeRoute dist prov hk addrs s =
          expandGroupedRoute (applyLocalSearchImprovements dist
            (groupSameLocationAddresses addrs)
            (buildDistanceMatrix dist prov hk (groupSameLocationAddresses addrs))
            (hybridOptimization dist (groupSameLocationAddresses addrs)
              (buildDistanceMatrix dist prov hk (groupSameLocationAddresses addrs))
              (groupSameLocationAddresses addrs) s))) ∧
    (∀ (dist : Dist) (prov : Provider) (hk : Bool) (addrs : List Address)
        (s : Option (ℚ × ℚ)), ¬ addrs.length ≤ 2 →
        ¬ (groupSameLocationAddresses addrs).length ≤ 100 →
        optimizeRoute dist prov hk addrs s =
          expandGroupedRoute (applyLocalSearchImprovements dist
            (groupSameLocationAddresses addrs)
            (buildDistanceMatrix dist prov hk (groupSameLocationAddresses addrs))
            (clusterBasedOptimization dist (groupSameLocationAddresses addrs)
              (buildDistanceMatrix dist prov hk (groupSameLocationAddresses addrs))
              (groupSameLocationAddresses addrs) s))) := by
  refine ⟨?_, ?_, ?_, ?_⟩
  · intro dist prov hk addrs s h2
    simp only [optimizeRoute, if_pos h2]
  · intro dist prov hk addrs s h2 h25
    simp only [optimizeRoute, if_neg h2, if_pos h25]
  · intro dist prov hk addrs s h2 h25 h100
    simp only [optimizeRoute, if_neg h2, if_neg h25, if_pos h100]
  · intro dist prov hk addrs s h2 h100
    exact optimizeRoute_cluster_tier dist prov hk addrs s h2
      (fun h => h100 (h.trans (by norm_num))) h100

/-- C2 counterexample: `exThree` has 3 stops collapsing to 2 location
groups, yet the output order differs from the input order — the trivial
tier tested the input count, so the advanced tier ran and reordered. -/
theorem c2_counterexample_two_groups_reordered :
    (groupSameLocationAddresses exThree).length = 2 ∧
    (optimizeRoute sqDist noProvider false exThree none).map Address.id ≠
      exThree.map Address.id := by
  decide

/-- C2 witness: each tier's dispatch equation at a concrete input. -/
theorem c2_tier_dispatch_witness :
    optimizeRoute sqDist noProvider false exTwo none = exTwo ∧
    optimizeRoute sqDist noProvider false exThree none =
      expandGroupedRoute (applyLocalSearchImprovements sqDist
        (groupSameLocationAddresses exThree)
        (buildDistanceMatrix sqDist noProvider false (groupSameLocationAddresses exThree))
        (advancedTSPOptimization sqDist (groupSameLocationAddresses exThree)
          (buildDistanceMatrix sqDist noProvider false (groupSameLocationAddresses exThree))
          (groupSameLocationAddresses exThree) none)) ∧
    optimizeRoute sqDist noProvider false exR30 none =
      expandGroupedRoute (applyLocalSearchImprovements sqDist
        (groupSameLocationAddresses exR30)
        (buildDistanceMatrix sqDist noProvider false (groupSameLocationAddresses exR30))
        (hybridOptimization sqDist (groupSameLocationAddresses exR30)
          (buildDistanceMatrix sqDist noProvider false (groupSameLocationAddresses exR30))
          (groupSameLocationAddresses exR30) none)) ∧
    optimizeRoute sqDist noProvider false ex101 none =
      expandGroupedRoute (applyLocalSearchImprovements sqDist
        (groupSameLocationAddresses ex101)
        (buildDistanceMatrix sqDist noProvider false (groupSameLocationAddresses ex101))
        (clusterBasedOptimization sqDist (groupSameLocationAddresses ex101)
          (buildDistanceMatrix sqDist noProvider false (groupSameLocationAddresses ex101))
          (groupSameLocationAddresses ex101) none)) :=
  ⟨c2_tier_dispatch.1 sqDist noProvider false exTwo none (by decide),
   c2_tier_dispatch.2.1 sqDist noProvider false exThree none (by decide) (by decide),
   c2_tier_dispatch.2.2.1 sqDist noProvider false exR30 none (by decide) (by decide)
     (by decide),
   c2_tier_dispatch.2.2.2 sqDist noProvider false ex101 none (by decide) (by decide)⟩

/-- C6: improvement-pass monotonicity as amended.  OrOpt never increases the
total for any route and matrix; TwoOpt never increases the total provided
the per-edge cost is symmetric.  (The unconditional TwoOpt half of the claim
is false on asymmetric matrices — see the counterexample: the pass
recomputes only one direction of the reversed segment.) -/
theorem c6_improvement_monotonicity :
    (∀ (dist : Dist) (orig : List GroupedAddress) (m : DMatrix)
        (route : List GroupedAddress),
        calculateTotalDistance dist orig m (applyOrOptImprovement dist orig m route) ≤
          calculateTotalDistance dist orig m route) ∧
    (∀ (dist : Dist) (orig : List GroupedAddress) (m : DMatrix)
        (route : List GroupedAddress),
        (∀ a b, getMatrixDistance dist orig m a b = getMatrixDistance dist orig m b a) →
        calculateTotalDistance dist orig m (apply2OptImprovement dist orig m route) ≤
          calculateTotalDistance dist orig m route) :=
  ⟨fun dist orig m route => applyOrOptImprovement_total_le dist orig m route,
   fun dist orig m route hsym => apply2OptImprovement_total_le dist orig m hsym route⟩

/-- C6 counterexample: on the asymmetric matrix `c6M` the TwoOpt pass raises
the 4-stop route total from 21 to 1002. -/
theorem c6_counterexample_two_opt_increases :
    calculateTotalDistance sqDist c6Orig c6M c6Orig = 21 ∧
    calculateTotalDistance sqDist c6Orig c6M
      (apply2OptImprovement sqDist c6Orig c6M c6Orig) = 1002 := by
  decide

/-- With no grouped list and no matrix every edge cost is the geometric
distance, which is symmetric for `sqDist`. -/
theorem getMatrixDistance_empty_symm (a b : GroupedAddress) :
    getMatrixDistance sqDist [] [] a b = getMatrixDistance sqDist [] [] b a := by
  show distG sqDist a b = distG sqDist b a
  unfold distG sqDist
  ring

/-- C6 witness: both monotonicity statements at a concrete 4-stop route. -/
theorem c6_improvement_monotonicity_witness :
    calculateTotalDistance sqDist c6Orig c6M
        (applyOrOptImprovement sqDist c6Orig c6M c6Orig) ≤
      calculateTotalDistance sqDist c6Orig c6M c6Orig ∧
    calculateTotalDistance sqDist [] []
        (apply2OptImprovement sqDist [] [] c6Orig) ≤
      calculateTotalDistance sqDist [] [] c6Orig :=
  ⟨c6_improvement_monotonicity.1 sqDist c6Orig c6M c6Orig,
   c6_improvement_monotonicity.2 sqDist [] [] c6Orig getMatrixDistance_empty_symm⟩

/-- C7: `christofidesApproximation` as amended.  For 5 or fewer groups it is
`greedyTSP`; for more it is `nearestNeighborWithMatrix` followed by the
ITERATED TwoOpt loop (passes repeat while one improved, capped at
`min(20, n)` sweeps), not a single pass — see the counterexample. -/
theorem c7_christofides_structure :
    (∀ (dist : Dist) (orig : List GroupedAddress) (m : DMatrix)
        (addrs : List GroupedAddress) (s : Option (ℚ × ℚ)), addrs.length ≤ 5 →
        christofidesApproximation dist orig m addrs s = greedyTSP dist orig m addrs s) ∧
    (∀ (dist : Dist) (orig : List GroupedAddress) (m : DMatrix)
        (addrs : List GroupedAddress) (s : Option (ℚ × ℚ)), 5 < addrs.length →
        christofidesApproximation dist orig m addrs s =
          apply2OptImprovementGo dist orig m
            (min 20 (nearestNeighborWithMatrix dist orig m addrs s).length)
            (nearestNeighborWithMatrix dist orig m addrs s)) := by
  constructor
  · intro dist orig m addrs s h
    unfold christofidesApproximation
    rw [if_pos h]
  · intro dist orig m addrs s h
    unfold christofidesApproximation
    rw [if_neg (not_le.mpr h)]
    unfold apply2OptImprovement
    rw [if_neg (by
      have := (nearestNeighborWithMatrix_perm dist orig m addrs s).length_eq
      omega)]

/-- C7 counterexample: on the 6-point instance `ex6` the iterated capped
loop and a single TwoOpt pass give different routes. -/
theorem c7_counterexample_not_single_pass :
    christofidesApproximation sqDist ex6 ex6M ex6 none ≠
      (twoOptPass sqDist ex6 ex6M
        (nearestNeighborWithMatrix sqDist ex6 ex6M ex6 none)).1 := by
  decide

/-- C7 witness: both branches at concrete inputs (4 and 6 groups). -/
theorem c7_christofides_structure_witness :
    christofidesApproximation sqDist c6Orig c6M c6Orig none =
      greedyTSP sqDist c6Orig c6M c6Orig none ∧
    christofidesApproximation sqDist ex6 ex6M ex6 none =
      apply2OptImprovementGo sqDist ex6 ex6M
        (min 20 (nearestNeighborWithMatrix sqDist ex6 ex6M ex6 none).length)
        (nearestNeighborWithMatrix sqDist ex6 ex6M ex6 none) :=
  ⟨c7_christofides_structure.1 sqDist c6Orig c6M c6Orig none (by decide),
   c7_christofides_structure.2 sqDist ex6 ex6M ex6 none (by decide)⟩

/-- C8: the metrics calculator as amended.  `totalDistance` is the sum of
GEOMETRIC consecutive-pair distances — the distance matrix is never
consulted (see the counterexample) — and `estimatedTime` equals
`3/2 * totalDistance + 5 * (stops - 1)` minutes: time at 40 km/h plus a
5-minute constant per EDGE, not per stop. -/
theorem c8_metrics_formula :
    ∀ (dist : Dist) (route : List Address),
      (calculateRouteMetrics dist route).totalDistance =
        totalBy (fun a b => dist a.latitude a.longitude b.latitude b.longitude) route ∧
      (calculateRouteMetrics dist route).estimatedTime =
        (3 / 2) * totalBy (fun a b => dist a.latitude a.longitude b.latitude b.longitude)
            route + 5 * ((route.length - 1 : ℕ) : ℚ) :=
  fun dist route => calculateRouteMetrics_formula dist route

/-- C8 counterexample: on a 2-stop route whose pair maps to matrix indices
with entry 100, the calculator reports the geometric total 1, diverging
from the spec's matrix-first reading. -/
theorem c8_counterexample_matrix_ignored :
    calculateRouteMetrics sqDist [c8r1, c8r2] ≠
      specCalculateRouteMetrics sqDist c8Orig c8M [c8r1, c8r2] := by
  decide

/-- C9: normalization idempotence as amended.  `normalize (normalize s) =
normalize s` holds whenever the first pass's output contains no further
apartment/unit/suite/# token match and does not end in an ASCII letter.
(The unqualified claim is false: the trailing-single-letter rule strips one
letter per round — see the counterexample.) -/
theorem c9_normalize_idempotent (s : String)
    (hkw : hasKeywordMatch (normalizeAddressForGrouping s).data = false)
    (hend : endsInAsciiLetter (normalizeAddressForGrouping s).data = false) :
    normalizeAddressForGrouping (normalizeAddressForGrouping s) =
      normalizeAddressForGrouping s :=
  normalize_idem_of s hkw hend

/-- C9 counterexample: `normalize "ab" = "a"` but `normalize "a" = ""`. -/
theorem c9_counterexample_trailing_letter :
    normalizeAddressForGrouping (normalizeAddressForGrouping strAb) ≠
      normalizeAddressForGrouping strAb := by
  decide

/-- C9 witness: the amended idempotence at the all-digit address "123". -/
theorem c9_normalize_idempotent_witness :
    hasKeywordMatch (normalizeAddressForGrouping str123).data = false ∧
    endsInAsciiLetter (normalizeAddressForGrouping str123).data = false ∧
    normalizeAddressForGrouping (normalizeAddressForGrouping str123) =
      normalizeAddressForGrouping str123 :=
  ⟨by decide, by decide, c9_normalize_idempotent str123 (by decide) (by decide)⟩

/-- C1: the permutation guarantee FAILS on the cluster tier.  On the
101-stop input `ex101` (101 distinct location groups, so the cluster
pipeline runs), the expanded output contains stop id "25" zero times and
stop id "0" twice, while the input contains each exactly once: the centroid
re-matching of `optimizeClusterOrder` (absolute tolerance `0.0001`) maps the
ordered centroid of the cluster containing stop 25 back to the cluster
containing stop 0, duplicating one cluster and dropping the other. -/
theorem c1_cluster_reorder_not_permutation :
    ((optimizeRoute sqDist noProvider false ex101 none).countP
        fun a => decide (a.id = Nat.repr 25)) = 0 ∧
    (ex101.countP fun a => decide (a.id = Nat.repr 25)) = 1 ∧
    ((optimizeRoute sqDist noProvider false ex101 none).countP
        fun a => decide (a.id = Nat.repr 0)) = 2 ∧
    (ex101.countP fun a => decide (a.id = Nat.repr 0)) = 1 := by
  obtain ⟨oC, R, hpC, hpR, hout⟩ := optimizeRoute_ex101
  have hmem : ∀ g ∈ R, g.members = [] := by
    intro g hg
    have hg2 := hpR.mem_iff.mp hg
    rw [List.mem_flatten] at hg2
    obtain ⟨l, hl, hgl⟩ := hg2
    have hexA : ∀ x ∈ exClA, x.members = [] := by decide
    have hexC : ∀ x ∈ exClC, x.members = [] := by decide
    have hexD : ∀ x ∈ exClD, x.members = [] := by decide
    simp only [List.mem_cons, List.not_mem_nil, or_false] at hl
    rcases hl with rfl | rfl | rfl | rfl
    · exact hexA g hgl
    · exact hexA g hgl
    · exact hexC g (hpC.mem_iff.mp hgl)
    · exact hexD g hgl
  have hcnt : ∀ p : Address → Bool,
      (optimizeRoute sqDist noProvider false ex101 none).countP p =
        [exClA, exClA, exClC, exClD].flatten.countP (fun g => p g.core) := by
    intro p
    rw [hout, expandGroupedRoute_eq_map_core hmem, List.countP_map]
    have h1 := hpR.countP_eq (p ∘ GroupedAddress.core)
    rw [h1]
    simp only [List.flatten_cons, List.flatten_nil, List.countP_append]
    rw [hpC.countP_eq (p ∘ GroupedAddress.core)]
    rfl
  refine ⟨?_, by decide, ?_, by decide⟩
  · rw [hcnt]
    decide
  · rw [hcnt]
    decide

end RP
